import Mathlib

/-!
Verification of the selective-inference selection-event builders.

This file gives a shallow embedding, over `ℚ`, of the selection-event
builders of the repository:

* `selection/randomized/marginal_screening.py` (class `marginal_screening`),
* `selection/SLOPE/slope.py` (class `randomized_slope`),
* `selection/bayesian/cisEQTLS/Simes_selection.py` (`BH_q`, `simes_selection`),

and proves the behavioural claims about them.  Vectors are `List ℚ`,
matrices are `List (List ℚ)` (row major).  numpy's generic linear-algebra
primitives (`dot`, `transpose`, `linalg.inv`, `sort`, `argsort`, `unique`)
are external collaborators of the specified core; they are embedded here by
small executable functions mirroring numpy semantics, with `linalg.inv`
failing exactly on singular input (zero determinant) and the `0 × 0` matrix
having determinant `1` (the empty product), as numpy does.  Fallible
computations return `Option`.
-/

/-! ## Generic vector and matrix operations (numpy collaborators) -/

/-- Elementwise vector negation, `-v` on a numpy array. -/
def vecNeg (v : List ℚ) : List ℚ := v.map (fun x => -x)

/-- Elementwise vector addition `u + v` (matching lengths in all uses). -/
def vecAdd (u v : List ℚ) : List ℚ := List.zipWith (· + ·) u v

/-- Elementwise vector subtraction `u - v`. -/
def vecSub (u v : List ℚ) : List ℚ := List.zipWith (· - ·) u v

/-- Elementwise product `u * v` of two numpy arrays. -/
def vecMul (u v : List ℚ) : List ℚ := List.zipWith (· * ·) u v

/-- Scalar times vector. -/
def vecScale (a : ℚ) (v : List ℚ) : List ℚ := v.map (fun x => a * x)

/-- Dot product of two vectors (inner product of matching-length lists). -/
def dotL (u v : List ℚ) : ℚ := (List.zipWith (· * ·) u v).sum

/-- Matrix–vector product `M.dot(v)`. -/
def matVec (M : List (List ℚ)) (v : List ℚ) : List ℚ := M.map (fun r => dotL r v)

/-- numpy transpose `M.T`.  For an empty array (no rows) the result is empty;
this also reproduces `np.asarray([]).T` having shape `(0,)`. -/
def transposeM (M : List (List ℚ)) : List (List ℚ) :=
  match M with
  | [] => []
  | r :: _ => (List.range r.length).map (fun c => M.map (fun row => row.getD c 0))

/-- numpy matrix product `A.dot(B)`: fails (as numpy raises) when the inner
dimensions disagree, i.e. when some row of `A` does not have exactly
`B.length` entries. -/
def matMulOpt (A B : List (List ℚ)) : Option (List (List ℚ)) :=
  if A.all (fun r => r.length = B.length) then
    some (A.map (fun r => (transposeM B).map (fun c => dotL r c)))
  else none

/-- Scalar times matrix, `M * a` on a numpy array. -/
def matScale (a : ℚ) (M : List (List ℚ)) : List (List ℚ) :=
  M.map (fun r => r.map (fun x => a * x))

/-- Elementwise matrix negation. -/
def matNeg (M : List (List ℚ)) : List (List ℚ) := M.map vecNeg

/-- The all-zeros vector `np.zeros(n)`. -/
def zerosV (n : ℕ) : List ℚ := List.replicate n 0

/-- The all-zeros matrix `np.zeros((n, k))`. -/
def zerosM (n k : ℕ) : List (List ℚ) := List.replicate n (zerosV k)

/-- numpy absolute value `np.fabs` on a rational. -/
def absQ (x : ℚ) : ℚ := if x < 0 then -x else x

/-- Delete row `i` and the first column of a matrix (first-column minor). -/
def minorM (M : List (List ℚ)) (i : ℕ) : List (List ℚ) :=
  (M.eraseIdx i).map (fun r => r.drop 1)

/-- Laplace expansion along the first column, with the matrix dimension as
structural fuel (every call passes the actual row count). -/
def detAux : ℕ → List (List ℚ) → ℚ
  | 0, _ => 1
  | n + 1, M =>
    ((List.range M.length).map
      (fun i => (-1 : ℚ) ^ i * (M.getD i []).getD 0 0 * detAux n (minorM M i))).sum

/-- Determinant by Laplace expansion along the first column.  The `0 × 0`
matrix has determinant `1` (empty product), matching the convention under
which numpy's `linalg.inv` succeeds on an empty matrix. -/
def detM (M : List (List ℚ)) : ℚ := detAux M.length M

/-- Cofactor-matrix entry used by the adjugate-based inverse. -/
def cofactorM (M : List (List ℚ)) (i j : ℕ) : ℚ :=
  (-1 : ℚ) ^ (i + j) * detM ((M.eraseIdx i).map (fun r => r.eraseIdx j))

/-- Modelled from the spec: the external numerics collaborator
`np.linalg.inv` (generic linear-algebra primitive, out of scope of the
core).  It fails exactly on singular input (zero determinant) and inverts
the `0 × 0` matrix to itself; on nonsingular input it returns the
adjugate-based inverse. -/
def invM (M : List (List ℚ)) : Option (List (List ℚ)) :=
  let d := detM M
  if d = 0 then none
  else some ((List.range M.length).map (fun i =>
    (List.range M.length).map (fun j => cofactorM M j i / d)))

/-- numpy sign function `np.sign` on a rational. -/
def signQ (x : ℚ) : ℚ := if x > 0 then 1 else if x < 0 then -1 else 0

/-- Boolean-mask selection `v[mask]` on a numpy array. -/
def maskSelect {α : Type} (mask : List Bool) (v : List α) : List α :=
  (List.zip mask v).filterMap (fun p => if p.1 then some p.2 else none)

/-- Boolean-mask assignment `orig[mask] = vals` on a numpy array: entries at
`true` positions are replaced, in order, by the entries of `vals`. -/
def scatter {α : Type} : List Bool → List α → List α → List α
  | _, [], _ => []
  | [], os, _ => os
  | true :: ms, _ :: os, v :: vs => v :: scatter ms os vs
  | true :: ms, o :: os, [] => o :: scatter ms os []
  | false :: ms, o :: os, vs => o :: scatter ms os vs

/-- numpy `np.diag(v)`: the square matrix with `v` on the diagonal. -/
def npDiag (v : List ℚ) : List (List ℚ) :=
  (List.range v.length).map (fun i =>
    (List.range v.length).map (fun j => if j = i then v.getD i 0 else 0))

/-- numpy `np.identity(n)`. -/
def npIdentity (n : ℕ) : List (List ℚ) :=
  (List.range n).map (fun i => (List.range n).map (fun j => if j = i then (1 : ℚ) else 0))

/-- numpy `np.min` of a (nonempty) array; `0` on an empty one. -/
def minD : List ℚ → ℚ
  | [] => 0
  | a :: t => t.foldl min a

/-- numpy `np.max` of a (nonempty) array of naturals; `0` on an empty one. -/
def maxD : List ℕ → ℕ
  | [] => 0
  | a :: t => t.foldl max a

/-- Ascending sort `np.sort` of a rational array (ties: stable insertion
sort; numpy's default sort is unstable on ties but the claims checked here
do not depend on tie order). -/
def npSort (v : List ℚ) : List ℚ := List.insertionSort (· ≤ ·) v

/-- Ascending `np.argsort` of a rational array: the indices `0..n-1` sorted
by the value they point at (ties resolved stably; see `npSort`). -/
def argsortL (v : List ℚ) : List ℕ :=
  List.insertionSort (fun i j => v.getD i 0 ≤ v.getD j 0) (List.range v.length)

/-! ## Marginal screening (`marginal_screening.fit`, lines 42–116)

The constructor stores `observed_score_state = -observed_data` (line 33)
and a per-coordinate `threshold` (line 40); the threshold involves the
external scipy normal-quantile collaborator `ndist.ppf`, so the embedding
takes the threshold vector as an input.  `fit` is embedded stagewise below;
`data` is `observed_data`, `omega` the perturbation actually used. -/

/-- Line 33: `observed_score_state = -observed_data`. -/
def msScoreState (data : List ℚ) : List ℚ := vecNeg data

/-- Line 52: `_randomized_score = observed_score_state - omega`. -/
def msRScore (data omega : List ℚ) : List ℚ := vecSub (msScoreState data) omega

/-- Line 53: `Z = -_randomized_score`. -/
def msZ (data omega : List ℚ) : List ℚ := vecNeg (msRScore data omega)

/-- Line 54: `soft_thresh = sign(Z) * (|Z| - threshold) * (|Z| >= threshold)`. -/
def msSoftThresh (data omega thr : List ℚ) : List ℚ :=
  List.zipWith (fun z t => signQ z * (absQ z - t) * (if absQ z ≥ t then 1 else 0))
    (msZ data omega) thr

/-- Line 55: `active = soft_thresh != 0`. -/
def msActive (data omega thr : List ℚ) : List Bool :=
  (msSoftThresh data omega thr).map (fun x => decide (x ≠ 0))

/-- Lines 60–62: the stored sign vector — `np.sign(Z)` with the
not-selected coordinates zeroed. -/
def msSignVec (data omega thr : List ℚ) : List ℚ :=
  scatter ((msActive data omega thr).map (fun b => !b))
    ((msZ data omega).map signQ)
    (maskSelect ((msActive data omega thr).map (fun b => !b))
      (zerosV (msZ data omega).length))

/-- Line 61: `active_signs = sign[self._selected]` (signs of `Z` restricted
to the selected coordinates). -/
def msActiveSigns (data omega thr : List ℚ) : List ℚ :=
  maskSelect (msActive data omega thr) ((msZ data omega).map signQ)

/-- Line 66: `observed_opt_state = np.fabs(soft_thresh[self._selected])`. -/
def msObservedOptState (data omega thr : List ℚ) : List ℚ :=
  (maskSelect (msActive data omega thr) (msSoftThresh data omega thr)).map absQ

/-- Line 67: `num_opt_var = observed_opt_state.shape[0]`. -/
def msNumOptVar (data omega thr : List ℚ) : ℕ :=
  (msObservedOptState data omega thr).length

/-- Lines 69–70: `opt_linear = zeros((p, k)); opt_linear[selected, :] =
np.diag(active_signs)`. -/
def msOptLinear (data omega thr : List ℚ) : List (List ℚ) :=
  scatter (msActive data omega thr)
    (zerosM (msZ data omega).length (msNumOptVar data omega thr))
    (npDiag (msActiveSigns data omega thr))

/-- Lines 71–73: `opt_offset = zeros(p); opt_offset[selected] =
active_signs * threshold[selected]; opt_offset[not_selected] =
_randomized_score[not_selected]`. -/
def msOptOffset (data omega thr : List ℚ) : List ℚ :=
  let active := msActive data omega thr
  let notSel := active.map (fun b => !b)
  scatter notSel
    (scatter active (zerosV (msZ data omega).length)
      (vecMul (msActiveSigns data omega thr) (maskSelect active thr)))
    (maskSelect notSel (msRScore data omega))

/-- The frozen outcome of `marginal_screening.fit`: the selection state,
the affine transform, and the conditional Gaussian (plus the affine
constraint data `A_scaling, b_scaling` of lines 92–93). -/
structure MSResult where
  initialSoln : List ℚ
  selected : List Bool
  signVec : List ℚ
  observedOptState : List ℚ
  numOptVar : ℕ
  optLinear : List (List ℚ)
  optOffset : List ℚ
  condPrecision : List (List ℚ)
  condCov : List (List ℚ)
  logdensLinear : List (List ℚ)
  condMean : List ℚ
  aScaling : List (List ℚ)
  bScaling : List ℚ
  deriving DecidableEq, Repr

/-- Lines 52–116 of `marginal_screening.fit`, for an isotropic randomizer
with scalar precision `prec` (the `np.asarray(prec).shape in [(), (0,)]`
branch of lines 80–83).  The construction of the `constraints` object and
the `affine_gaussian_sampler` (repository modules not included here) is
modelled from the spec as the plain packaging of the computed fields; the
spec gives them no failure mode.  Returns `none` exactly where numpy's
linear algebra would raise. -/
def msFit (data omega thr : List ℚ) (prec : ℚ) : Option MSResult := do
  let optLinear := msOptLinear data omega thr
  let condPrecision := matScale prec (← matMulOpt (transposeM optLinear) optLinear)
  let condCov ← invM condPrecision
  let logdensLinear := matScale prec (← matMulOpt condCov (transposeM optLinear))
  let condMean := matVec logdensLinear
    (vecSub (vecNeg (msScoreState data)) (msOptOffset data omega thr))
  pure { initialSoln := msSoftThresh data omega thr
         selected := msActive data omega thr
         signVec := msSignVec data omega thr
         observedOptState := msObservedOptState data omega thr
         numOptVar := msNumOptVar data omega thr
         optLinear := optLinear
         optOffset := msOptOffset data omega thr
         condPrecision := condPrecision
         condCov := condCov
         logdensLinear := logdensLinear
         condMean := condMean
         aScaling := matNeg (npIdentity (msActiveSigns data omega thr).length)
         bScaling := zerosV (msNumOptVar data omega thr) }

example : msActive [2] [0] [1] = [true] := by with_unfolding_all decide
example : msObservedOptState [2] [0] [1] = [1] := by with_unfolding_all decide
example : msActive [1/2] [0] [1] = [false] := by with_unfolding_all decide
example : msOptOffset [-2, 1/2] [0, 0] [1, 1] = [-1, -1/2] := by with_unfolding_all decide
example : (msFit [2] [0] [1] 1).isSome = true := by with_unfolding_all decide
example : (msFit [0] [0] [1] 1).isSome = true := by with_unfolding_all decide

/-! ## SLOPE (`randomized_slope.fit`, lines 52–168)

The external convex-optimization oracle (`problem.solve`, line 66), the
restricted refit (`restricted_estimator`, line 89), and the loss-model
collaborators (`smooth_objective(·,'grad')` and
`saturated_loss.hessian`, lines 79, 101, 107) are deterministic external
collaborators per the spec; the embedding takes them as function-valued
parameters.  `soln` below is `initial_soln`, the oracle output. -/

/-- Line 83: `indices = np.argsort(-np.fabs(initial_soln))`. -/
def slopeIndices (soln : List ℚ) : List ℕ := argsortL (vecNeg (soln.map absQ))

/-- Line 84: `sorted_soln = initial_soln[indices]`. -/
def slopeSorted (soln : List ℚ) : List ℚ :=
  (slopeIndices soln).map (fun i => soln.getD i 0)

/-- Lines 68–69: `active_signs = np.sign(initial_soln)`; `active =
active_signs != 0` (and `overall = active > 0` on the boolean array is the
same mask). -/
def slopeActive (soln : List ℚ) : List Bool := soln.map (fun x => decide (x ≠ 0))

/-- numpy `np.unique`: the sorted distinct values of an array. -/
def npUnique (l : List ℚ) : List ℚ := npSort l.dedup

/-- Lines 85–86: `observed_opt_state =
np.sort(np.unique(np.fabs(initial_soln[active])))[::-1]`. -/
def slopeObservedOptState (soln : List ℚ) : List ℚ :=
  (npSort (npUnique ((maskSelect (slopeActive soln) soln).map absQ))).reverse

/-- Line 95: `num_opt_var = observed_opt_state.shape[0]`. -/
def slopeNumOptVar (soln : List ℚ) : ℕ := (slopeObservedOptState soln).length

/-- Lines 118–120: the cluster sign vector — zeros except at the sorted
positions `cur_indx_array[pointer], …, j` (here `start, …, jp1 - 1`), which
get the signs of the solution entries at those sorted positions. -/
def slopeSignVec (soln : List ℚ) (indices : List ℕ) (p start jp1 : ℕ) : List ℚ :=
  (List.range p).map (fun t =>
    if start ≤ t ∧ t < jp1 then signQ (soln.getD (indices.getD t 0) 0) else 0)

/-- Loop state of lines 109–113: `cur_indx_array`, `cur_indx`, `pointer`,
`signs_cluster`. -/
structure SlopeLoopState where
  curIndxArray : List ℕ
  curIndx : ℕ
  pointer : ℕ
  signsCluster : List (List ℚ)
  deriving DecidableEq, Repr

/-- Lines 116–122: the body executed when a cluster closes at step `j`:
append `j + 1` to `cur_indx_array`, move `cur_indx`, emit the sign vector
of the run `cur_indx_array[pointer] … j`, and advance `pointer`. -/
def slopeLoopStep (soln : List ℚ) (indices : List ℕ) (p j : ℕ)
    (st : SlopeLoopState) : SlopeLoopState :=
  { curIndxArray := st.curIndxArray ++ [j + 1]
    curIndx := j + 1
    pointer := st.pointer + 1
    signsCluster := st.signsCluster ++
      [slopeSignVec soln indices p ((st.curIndxArray ++ [j + 1]).getD st.pointer 0)
        (j + 1)] }

/-- Lines 114–124: the clustering loop `for j in range(p - 1)`, with the
remaining iteration count as structural fuel (`fit` starts it with fuel
`p - 1` at `j = 0`).  A cluster is closed when the next sorted magnitude
differs from the magnitude at `cur_indx`; after closing a cluster at a zero
magnitude the loop breaks. -/
def slopeLoopAux (soln : List ℚ) (indices : List ℕ) (sorted : List ℚ) (p : ℕ) :
    ℕ → ℕ → SlopeLoopState → SlopeLoopState
  | 0, _, st => st
  | fuel + 1, j, st =>
    if absQ (sorted.getD (j + 1) 0) ≠ absQ (sorted.getD st.curIndx 0) then
      if sorted.getD (j + 1) 0 = 0 then slopeLoopStep soln indices p j st
      else slopeLoopAux soln indices sorted p fuel (j + 1)
        (slopeLoopStep soln indices p j st)
    else slopeLoopAux soln indices sorted p fuel (j + 1) st

/-- The initial loop state of lines 109–113. -/
def slopeLoopInit : SlopeLoopState :=
  { curIndxArray := [0], curIndx := 0, pointer := 0, signsCluster := [] }

/-- The `signs_cluster` list accumulated by the loop of lines 114–124 (one
entry per closed magnitude cluster, before the `asarray(·).T` of
line 126). -/
def slopeSignsCluster (soln : List ℚ) : List (List ℚ) :=
  (slopeLoopAux soln (slopeIndices soln) (slopeSorted soln) soln.length
    (soln.length - 1) 0 slopeLoopInit).signsCluster

/-- The deterministic external collaborators of `randomized_slope.fit`:
the convex solver of line 66 (perturbation to solution), the restricted
refit of line 89 (active mask to restricted coefficients), and the
loss-model hessian diagonal and gradient of lines 79, 101, 107. -/
structure SlopeOracles where
  solveProblem : List ℚ → List ℚ
  restrictedEst : List Bool → List ℚ
  hessDiag : List ℚ → List ℚ
  gradAt : List ℚ → List ℚ

/-- The frozen outcome of `randomized_slope.fit`: selection state, affine
transform, score state, and conditional Gaussian. -/
structure SlopeResult where
  initialSoln : List ℚ
  activeSigns : List ℚ
  active : List Bool
  observedOptState : List ℚ
  numOptVar : ℕ
  signsCluster : List (List ℚ)
  initialSubgrad : List ℚ
  observedScoreState : List ℚ
  optLinear : List (List ℚ)
  optOffset : List ℚ
  condPrecision : List (List ℚ)
  condCov : List (List ℚ)
  logdensLinear : List (List ℚ)
  condMean : List ℚ
  deriving DecidableEq, Repr

/-- Lines 64–168 of `randomized_slope.fit` for a fixed perturbation
`omega`, design matrix `X` (`n × p`), ridge coefficient `ridge` and
isotropic randomizer precision `prec`.  `initial_subgrad` (lines 79–81) is
`-(gradAt(initial_soln) + ridge * initial_soln - omega)`, the quadratic
term's gradient being `ridge * β - omega`.  Returns `none` exactly where
numpy's linear algebra would raise (mismatched `dot` shapes or a singular
`cond_precision`). -/
def slopeFit (oc : SlopeOracles) (X : List (List ℚ)) (p : ℕ) (ridge prec : ℚ)
    (omega : List ℚ) : Option SlopeResult := do
  let soln := oc.solveProblem omega
  let activeSigns := soln.map signQ
  let active := slopeActive soln
  let initialSubgrad := vecNeg (vecAdd (oc.gradAt soln) (vecSub (vecScale ridge soln) omega))
  let indices := slopeIndices soln
  let observedOptState := slopeObservedOptState soln
  let betaUnpen := oc.restrictedEst active
  let betaBar := scatter active (zerosV p) betaUnpen
  let W := oc.hessDiag (matVec X betaBar)
  let hessianActive ← matMulOpt (transposeM X)
    ((X.zip W).map (fun rw => (maskSelect active rw.1).map (fun x => x * rw.2)))
  let obsScore0 := matVec hessianActive betaUnpen
  let gradBar := oc.gradAt betaBar
  let observedScoreState := List.zipWith (fun s (q : Bool × ℚ) => if q.1 then s else s + q.2)
    obsScore0 (active.zip gradBar)
  let signsCluster := (slopeLoopAux soln indices (slopeSorted soln) p (p - 1) 0
    slopeLoopInit).signsCluster
  let xClustered ← matMulOpt (X.map (fun row => indices.map (fun i => row.getD i 0)))
    (transposeM signsCluster)
  let optLinear := matNeg (← matMulOpt (transposeM X) xClustered)
  let optOffset := initialSubgrad
  let condPrecision := matScale prec (← matMulOpt (transposeM optLinear) optLinear)
  let condCov ← invM condPrecision
  let logdensLinear := matScale prec (← matMulOpt condCov (transposeM optLinear))
  let condMean := vecNeg (matVec logdensLinear (vecAdd observedScoreState optOffset))
  pure { initialSoln := soln
         activeSigns := activeSigns
         active := active
         observedOptState := observedOptState
         numOptVar := observedOptState.length
         signsCluster := signsCluster
         initialSubgrad := initialSubgrad
         observedScoreState := observedScoreState
         optLinear := optLinear
         optOffset := optOffset
         condPrecision := condPrecision
         condCov := condCov
         logdensLinear := logdensLinear
         condMean := condMean }

example : slopeSignsCluster [3, 3, 2, 0] = [[1, 1, 0, 0], [0, 0, 1, 0]] := by
  with_unfolding_all decide
example : slopeObservedOptState [3, 3, 2, 0] = [3, 2] := by with_unfolding_all decide
example : slopeNumOptVar [3, 3, 2, 0] = 2 := by with_unfolding_all decide

/-! ## BH sieve and Simes selection (`Simes_selection.py`)

`simes_selection` first maps the data to randomized p-values through the
external scipy collaborator `normal.cdf` (line 51:
`2 * (1 - normal.cdf(np.abs(randomized_T_stats)))`); the embedding takes
that p-value array `pv` (together with the unrandomized `T_stats`) as
input, everything downstream of line 51 being embedded faithfully. -/

/-- Line 14 of `BH_q`: the boolean array
`p_sorted - level * (arange(m) + 1) / (2 * m) <= 0`. -/
def BH_mask (pval : List ℚ) (level : ℚ) : List Bool :=
  (List.range pval.length).map
    (fun (i : ℕ) =>
      decide ((npSort pval).getD i 0 - level * ((i : ℚ) + 1) / (2 * (pval.length : ℚ)) ≤ 0))

/-- Line 15 of `BH_q`: `order_sig = np.max(indices[mask])`. -/
def BH_orderSig (pval : List ℚ) (level : ℚ) : ℕ :=
  maxD (maskSelect (BH_mask pval level) (List.range pval.length))

/-- Lines 6–20: `BH_q`.  Returns the two arrays of line 17 (`p_sorted` and
`sig_pvalues = indices_order`, both truncated at `order_sig`), or `None`
when no sorted p-value is below its scaled level (line 14's `np.any`
test). -/
def BH_q (pval : List ℚ) (level : ℚ) : Option (List ℚ × List ℕ) :=
  if (BH_mask pval level).any id then
    some ((npSort pval).take (BH_orderSig pval level),
      (argsortL pval).take (BH_orderSig pval level))
  else none

/-- The tuple returned at line 77 of `simes_selection`.  `J` is a list of
integers because the no-inactive branch (line 73) stores the sentinel
`-1 * np.ones(1)`; `TInf` holds `T_stats_inf`, a one-element list in that
branch (line 74 returns the bare scalar; it is boxed here to give the field
a single type). -/
structure SimesResult where
  i0 : ℕ
  J : List ℤ
  t0 : ℕ
  sgn : ℚ
  TInf : List ℚ
  deriving DecidableEq, Repr

/-- Line 56 of `simes_selection`: `simes_p_randomized =
np.min((p / (arange(p) + 1)) * p_val_randomized)`. -/
def simesP (pv : List ℚ) : ℚ :=
  minD ((List.range pv.length).map
    (fun (r : ℕ) => ((pv.length : ℚ) / ((r : ℚ) + 1)) * (npSort pv).getD r 0))

/-- Line 60 of `simes_selection`: `significant =
indices_order[p_val_randomized <= alpha / 2]`. -/
def simesSignificant (pv : List ℚ) (alpha : ℚ) : List ℕ :=
  maskSelect
    ((List.range pv.length).map (fun r => decide ((npSort pv).getD r 0 ≤ alpha / 2)))
    (argsortL pv)

/-- Line 66 of `simes_selection`: `t_0 =
indices[p_val_randomized <= ((arange(p) + 1) / (2 * p)) * alpha]`. -/
def simesT0s (pv : List ℚ) (alpha : ℚ) : List ℕ :=
  maskSelect
    ((List.range pv.length).map (fun (r : ℕ) =>
      decide ((npSort pv).getD r 0 ≤ (((r : ℚ) + 1) / (2 * (pv.length : ℚ))) * alpha)))
    (List.range pv.length)

/-- Lines 50–81 of `simes_selection`, for fixed data and randomization
draw: `pv` is the unsorted randomized p-value array of line 51 and
`Tstats` the statistic array of line 44.  `significant[0]` and `t_0[0]`
(lines 62, 66–68) are embedded as `headD 0`; both lists are nonempty
whenever the branch is reached (proved below), where the source would
otherwise raise an IndexError. -/
def simes_selection (Tstats pv : List ℚ) (alpha : ℚ) : Option SimesResult :=
  if simesP pv ≤ alpha / 2 then
    if (simesT0s pv alpha).headD 0 > 0 then
      some { i0 := (simesSignificant pv alpha).headD 0
             J := ((argsortL pv).take ((simesT0s pv alpha).headD 0)).map (fun n => (n : ℤ))
             t0 := (simesT0s pv alpha).headD 0
             sgn := signQ (Tstats.getD ((simesSignificant pv alpha).headD 0) 0)
             TInf := (((argsortL pv).take ((simesT0s pv alpha).headD 0)).map
                 (fun i => Tstats.getD i 0)) ++
               [Tstats.getD ((simesSignificant pv alpha).headD 0) 0] }
    else
      some { i0 := (simesSignificant pv alpha).headD 0
             J := [-1]
             t0 := (simesT0s pv alpha).headD 0
             sgn := signQ (Tstats.getD ((simesSignificant pv alpha).headD 0) 0)
             TInf := [Tstats.getD ((simesSignificant pv alpha).headD 0) 0] }
  else none

/-! ## Targets of inference (`randomized_slope.selected_targets`,
lines 227–269)

The embedding covers the explicit-`features` branch (lines 247–262) and
the shared Pearson-dispersion tail (lines 264–266).  The loss-model
collaborators are parameters: `W` is `self._W`, `gradSoln` is
`loglike.smooth_objective(initial_soln, 'grad')`, and `meanFn` is
`saturated_loss.mean_function`.  The final division of line 266 is by the
Python integer `n - Xfeat.shape[1]`, which numpy performs in floating
point: dividing by zero yields `inf`/`-inf`/`nan` (with a warning), not an
exception, so the quotient is embedded as an IEEE-style extended rational.
The elementwise `/ self._W` of line 266 is embedded as rational division
(the inputs evaluated here keep `W` nonzero). -/

/-- An IEEE-style extended rational: the value of a numpy float division. -/
inductive FloatQ where
  | finite (q : ℚ)
  | posInf
  | negInf
  | nan
  deriving DecidableEq, Repr

/-- numpy float division of a rational by a (possibly zero) integer. -/
def fdivZ (x : ℚ) (d : ℤ) : FloatQ :=
  if d = 0 then (if x > 0 then .posInf else if x < 0 then .negInf else .nan)
  else .finite (x / d)

/-- Whether the extended rational is an ordinary (finite) value. -/
def FloatQ.isFinite : FloatQ → Bool
  | .finite _ => true
  | _ => false

/-- numpy multiplication of an extended rational by a rational. -/
def fmulQ : FloatQ → ℚ → FloatQ
  | .finite a, q => .finite (a * q)
  | .posInf, q => if q > 0 then .posInf else if q < 0 then .negInf else .nan
  | .negInf, q => if q > 0 then .negInf else if q < 0 then .posInf else .nan
  | .nan, _ => .nan

/-- The one-sided/two-sided alternatives of the target bundle. -/
inductive TargetAlt where
  | greater
  | less
  | twosided
  deriving DecidableEq, Repr

/-- The tuple returned by `selected_targets` (line 269): observed target,
`cov_target * dispersion`, `crosscov_target_score.T * dispersion`,
alternatives, together with the dispersion actually used. -/
structure TargetBundle where
  observedTarget : List ℚ
  covTarget : List (List FloatQ)
  crossCovTargetScore : List (List FloatQ)
  alternatives : List TargetAlt
  dispersion : FloatQ
  deriving DecidableEq, Repr

/-- Lines 247–269 of `randomized_slope.selected_targets` with an explicit
`features` mask: `Xfeat = X[:, features]`, `Qfeat = Xfeat.T (W ⊙ Xfeat)`,
`one_step = initial_soln[features] - Qfeat⁻¹ Gfeat`, alternatives all
twosided, and, when `dispersion` is unspecified, Pearson's `X²` estimate
`((y - mean(Xfeat · target))² / W).sum() / (n - |features|)`. -/
def selectedTargets (X : List (List ℚ)) (y W soln gradSoln : List ℚ) (meanFn : ℚ → ℚ)
    (features : List Bool) (dispersion : Option ℚ) : Option TargetBundle := do
  let n := X.length
  let xFeat := X.map (fun row => maskSelect features row)
  let qFeat ← matMulOpt (transposeM xFeat)
    ((xFeat.zip W).map (fun rw => rw.1.map (fun x => rw.2 * x)))
  let gFeat := maskSelect features gradSoln
  let qFeatInv ← invM qFeat
  let oneStep := vecSub (maskSelect features soln) (matVec qFeatInv gFeat)
  let covTarget := qFeatInv
  let scoreLinear := transposeM (matNeg (← matMulOpt (transposeM xFeat)
    ((X.zip W).map (fun rw => rw.1.map (fun x => rw.2 * x)))))
  let crossCov ← matMulOpt scoreLinear covTarget
  let observedTarget := oneStep
  let alts := List.replicate (features.count true) TargetAlt.twosided
  let disp : FloatQ := match dispersion with
    | some q => .finite q
    | none =>
      fdivZ ((List.zipWith (fun yi (mw : ℚ × ℚ) => (yi - meanFn mw.1) ^ 2 / mw.2)
        y ((matVec xFeat observedTarget).zip W)).sum)
        ((n : ℤ) - (features.count true : ℤ))
  pure { observedTarget := observedTarget
         covTarget := covTarget.map (fun r => r.map (fun q => fmulQ disp q))
         crossCovTargetScore := (transposeM crossCov).map (fun r => r.map (fun q => fmulQ disp q))
         alternatives := alts
         dispersion := disp }

/-! ## Stateful `fit` wrappers (perturbation bookkeeping)

Both builders open `fit` with the same bookkeeping (slope.py lines 58–62,
marginal_screening.py lines 46–50): an explicitly supplied perturbation
replaces the stored one, a missing stored perturbation is drawn from the
randomizer, and the perturbation actually used is left stored.  The
randomizer's i.i.d. draws are modelled as a stream `draws` with a cursor
`ctr` that advances exactly when a draw is taken. -/

/-- The two `if` statements opening `fit`: returns the perturbation used,
the new stored perturbation, and the new draw cursor. -/
def resolveOmega (perturb storedOmega : Option (List ℚ)) (draws : ℕ → List ℚ)
    (ctr : ℕ) : List ℚ × Option (List ℚ) × ℕ :=
  let stored1 := match perturb with
    | some w => some w
    | none => storedOmega
  match stored1 with
  | some w => (w, some w, ctr)
  | none => (draws ctr, some (draws ctr), ctr + 1)

/-- `marginal_screening.fit` including its perturbation bookkeeping. -/
def msFitStateful (data thr : List ℚ) (prec : ℚ) (perturb storedOmega : Option (List ℚ))
    (draws : ℕ → List ℚ) (ctr : ℕ) : Option MSResult × Option (List ℚ) × ℕ :=
  let r := resolveOmega perturb storedOmega draws ctr
  (msFit data r.1 thr prec, r.2.1, r.2.2)

/-- `randomized_slope.fit` including its perturbation bookkeeping. -/
def slopeFitStateful (oc : SlopeOracles) (X : List (List ℚ)) (p : ℕ) (ridge prec : ℚ)
    (perturb storedOmega : Option (List ℚ)) (draws : ℕ → List ℚ) (ctr : ℕ) :
    Option SlopeResult × Option (List ℚ) × ℕ :=
  let r := resolveOmega perturb storedOmega draws ctr
  (slopeFit oc X p ridge prec r.1, r.2.1, r.2.2)

/-! ## Helper lemmas -/

lemma vecSub_neg_eq (s c : List ℚ) : vecSub (vecNeg s) c = vecNeg (vecAdd s c) := by
  induction s generalizing c with
  | nil => simp [vecSub, vecNeg, vecAdd]
  | cons a t ih =>
    cases c with
    | nil => simp [vecSub, vecNeg, vecAdd]
    | cons b u =>
      simp only [vecSub, vecNeg, vecAdd, List.map_cons, List.zipWith_cons_cons,
        List.cons.injEq] at ih ⊢
      exact ⟨by ring, ih u⟩

lemma dotL_neg (r v : List ℚ) : dotL r (vecNeg v) = -dotL r v := by
  induction r generalizing v with
  | nil => simp [dotL, vecNeg]
  | cons a t ih =>
    cases v with
    | nil => simp [dotL, vecNeg]
    | cons b u =>
      simp only [dotL, vecNeg, List.map_cons, List.zipWith_cons_cons, List.sum_cons]
      have h : (List.zipWith (· * ·) t (List.map (fun x => -x) u)).sum
          = -(List.zipWith (· * ·) t u).sum := ih u
      rw [h]; ring

lemma matVec_neg (L : List (List ℚ)) (v : List ℚ) :
    matVec L (vecNeg v) = vecNeg (matVec L v) := by
  simp only [matVec, vecNeg, List.map_map]
  refine List.map_congr_left (fun r _ => ?_)
  simpa [vecNeg] using dotL_neg r v

lemma matVec_screening_form (L : List (List ℚ)) (s c : List ℚ) :
    matVec L (vecSub (vecNeg s) c) = vecNeg (matVec L (vecAdd s c)) := by
  rw [vecSub_neg_eq, matVec_neg]

/-! ## Claim theorems -/

/-- C2: on the fitted SLOPE solution `[3, 3, 2, 0]` (already in descending
magnitude order), the clustering loop of `randomized_slope.fit` produces
exactly two magnitude clusters — the two coordinates of magnitude 3 and the
single coordinate of magnitude 2 — stops clustering at the zero magnitude
(no third cluster), and `observed_opt_state = [3, 2]`, `num_opt_var = 2`. -/
theorem slope_clustering_on_3320 :
    slopeSignsCluster [3, 3, 2, 0] = [[1, 1, 0, 0], [0, 0, 1, 0]] ∧
    slopeObservedOptState [3, 3, 2, 0] = [3, 2] ∧
    slopeNumOptVar [3, 3, 2, 0] = 2 := by
  with_unfolding_all decide

/-- C1: the sampler contract for `cond_mean`.  First, for every matrix
`logdens_linear` and vectors `s`, `c`, the marginal-screening expression
`logdens_linear · (-s - c)` equals the SLOPE expression
`-logdens_linear · (s + c)`.  Consequently each call site's `cond_mean`
equals `-logdens_linear · (effective_score + effective_offset)` for its own
effective score and offset: the marginal-screening `fit` (line 89) and the
SLOPE `fit` (line 137) both produce exactly that value. -/
theorem cond_mean_sign_convention :
    (∀ L s c, matVec L (vecSub (vecNeg s) c) = vecNeg (matVec L (vecAdd s c))) ∧
    (∀ data omega thr prec r, msFit data omega thr prec = some r →
      r.condMean =
        vecNeg (matVec r.logdensLinear (vecAdd (msScoreState data) r.optOffset))) ∧
    (∀ oc X p ridge prec omega r, slopeFit oc X p ridge prec omega = some r →
      r.condMean =
        vecNeg (matVec r.logdensLinear (vecAdd r.observedScoreState r.optOffset))) := by
  refine ⟨fun L s c => matVec_screening_form L s c, ?_, ?_⟩
  · intro data omega thr prec r h
    unfold msFit at h
    simp only [bind, Option.bind_eq_some, Option.pure_def, Option.some.injEq] at h
    obtain ⟨m1, hm1, m2, hm2, m3, hm3, hr⟩ := h
    subst hr
    exact matVec_screening_form _ _ _
  · intro oc X p ridge prec omega r h
    unfold slopeFit at h
    simp only [bind, Option.bind_eq_some, Option.pure_def, Option.some.injEq] at h
    obtain ⟨m1, hm1, m2, hm2, m3, hm3, m4, hm4, m5, hm5, m6, hm6, hr⟩ := h
    subst hr
    rfl

/-- Witness for `cond_mean_sign_convention`: concrete successful fits of
both builders satisfying the contract. -/
theorem cond_mean_sign_convention_witness :
    (∀ r, msFit [2] [0] [1] 1 = some r →
      r.condMean =
        vecNeg (matVec r.logdensLinear (vecAdd (msScoreState [2]) r.optOffset))) ∧
    (∀ r, slopeFit
        { solveProblem := fun _ => [1, 0], restrictedEst := fun _ => [1]
          hessDiag := fun _ => [1, 1], gradAt := fun _ => [0, 0] }
        [[1, 0], [0, 1]] 2 0 1 [0, 0] = some r →
      r.condMean =
        vecNeg (matVec r.logdensLinear (vecAdd r.observedScoreState r.optOffset))) :=
  ⟨fun r h => cond_mean_sign_convention.2.1 [2] [0] [1] 1 r h,
   fun r h => cond_mean_sign_convention.2.2
     { solveProblem := fun _ => [1, 0], restrictedEst := fun _ => [1]
       hessDiag := fun _ => [1, 1], gradAt := fun _ => [0, 0] }
     [[1, 0], [0, 1]] 2 0 1 [0, 0] r h⟩

/-- C7: a second `fit` with `perturb=None` reuses the stored perturbation
rather than drawing a fresh one (the draw cursor does not advance and the
stored perturbation is unchanged), and — the external solver being
deterministic — recomputes the identical selection state, affine transform
and conditional Gaussian, for both builders. -/
theorem refit_reuses_stored_perturbation :
    (∀ data thr prec perturb stored draws ctr,
      msFitStateful data thr prec none
          (msFitStateful data thr prec perturb stored draws ctr).2.1 draws
          (msFitStateful data thr prec perturb stored draws ctr).2.2 =
        msFitStateful data thr prec perturb stored draws ctr) ∧
    (∀ oc X p ridge prec perturb stored draws ctr,
      slopeFitStateful oc X p ridge prec none
          (slopeFitStateful oc X p ridge prec perturb stored draws ctr).2.1 draws
          (slopeFitStateful oc X p ridge prec perturb stored draws ctr).2.2 =
        slopeFitStateful oc X p ridge prec perturb stored draws ctr) := by
  constructor
  · intro data thr prec perturb stored draws ctr
    rcases perturb with _ | w <;> rcases stored with _ | w0 <;>
      simp [msFitStateful, resolveOmega]
  · intro oc X p ridge prec perturb stored draws ctr
    rcases perturb with _ | w <;> rcases stored with _ | w0 <;>
      simp [slopeFitStateful, resolveOmega]

lemma maskSelect_nil_right {α : Type} (m : List Bool) : maskSelect m ([] : List α) = [] := by
  simp [maskSelect]

lemma maskSelect_cons_true {α : Type} (ms : List Bool) (a : α) (vs : List α) :
    maskSelect (true :: ms) (a :: vs) = a :: maskSelect ms vs := by
  simp [maskSelect]

lemma maskSelect_cons_false {α : Type} (ms : List Bool) (a : α) (vs : List α) :
    maskSelect (false :: ms) (a :: vs) = maskSelect ms vs := by
  simp [maskSelect]

lemma maskSelect_length {α : Type} (mask : List Bool) (v : List α)
    (h : mask.length = v.length) : (maskSelect mask v).length = mask.count true := by
  induction mask generalizing v with
  | nil => simp [maskSelect]
  | cons b ms ih =>
    cases v with
    | nil => simp at h
    | cons a vs =>
      cases b with
      | true => simp [maskSelect_cons_true, ih vs (by simpa using h), List.count_cons]
      | false => simp [maskSelect_cons_false, ih vs (by simpa using h), List.count_cons]

lemma getD_map_lt {α β : Type} (f : α → β) (l : List α) (i : ℕ) (da : α) (db : β)
    (hi : i < l.length) : (l.map f).getD i db = f (l.getD i da) := by
  induction l generalizing i with
  | nil => simp at hi
  | cons a t ih =>
    cases i with
    | zero => simp
    | succ n => simpa using ih n (by simpa using hi)

lemma getD_zipWith {α : Type} (f : α → α → α) (u v : List α) (i : ℕ) (d : α)
    (hu : i < u.length) (hv : i < v.length) :
    (List.zipWith f u v).getD i d = f (u.getD i d) (v.getD i d) := by
  induction u generalizing v i with
  | nil => simp at hu
  | cons a t ih =>
    cases v with
    | nil => simp at hv
    | cons b w =>
      cases i with
      | zero => simp
      | succ n => simpa using ih w n (by simpa using hu) (by simpa using hv)

lemma count_take_lt (mask : List Bool) (i : ℕ) (hi : i < mask.length)
    (hm : mask.getD i false = true) :
    (mask.take i).count true < mask.count true := by
  induction mask generalizing i with
  | nil => simp at hi
  | cons b ms ih =>
    cases i with
    | zero =>
      have hb : b = true := by simpa using hm
      subst hb
      simp [List.count_cons]
    | succ n =>
      have h2 := ih n (by simpa using hi) (by simpa using hm)
      cases b <;> simp [List.count_cons] <;> omega

lemma maskSelect_getD {α : Type} (mask : List Bool) (v : List α) (i : ℕ) (d : α)
    (hlen : mask.length = v.length) (hi : i < v.length)
    (hm : mask.getD i false = true) :
    (maskSelect mask v).getD ((mask.take i).count true) d = v.getD i d := by
  induction mask generalizing v i with
  | nil => rw [← hlen] at hi; simp at hi
  | cons b ms ih =>
    cases v with
    | nil => simp at hi
    | cons a vs =>
      cases i with
      | zero =>
        have hb : b = true := by simpa using hm
        subst hb
        rw [maskSelect_cons_true]
        rfl
      | succ n =>
        have hlen2 : ms.length = vs.length := by simpa using hlen
        have hi2 : n < vs.length := by simpa using hi
        have hm2 : ms.getD n false = true := by simpa using hm
        cases b with
        | true =>
          simp only [List.take_succ_cons, List.count_cons, maskSelect_cons_true,
            beq_self_eq_true, if_true, List.getD_cons_succ]
          exact ih vs n hlen2 hi2 hm2
        | false =>
          simp only [List.take_succ_cons, List.count_cons, maskSelect_cons_false]
          simpa using ih vs n hlen2 hi2 hm2

lemma scatter_getD_false {α : Type} (ms : List Bool) (os vals : List α) (i : ℕ) (d : α)
    (hi : i < os.length) (hm : ms.getD i false = false) :
    (scatter ms os vals).getD i d = os.getD i d := by
  induction ms generalizing os vals i with
  | nil => cases os <;> simp [scatter]
  | cons b t ih =>
    cases os with
    | nil => simp at hi
    | cons o os2 =>
      cases i with
      | zero =>
        simp at hm
        cases vals with
        | nil => cases b <;> simp [scatter, hm]
        | cons v vs => simp [scatter, hm]
      | succ n =>
        have hi2 : n < os2.length := by simpa using hi
        have hm2 : t.getD n false = false := by simpa using hm
        cases b with
        | true =>
          cases vals with
          | nil => simpa [scatter] using ih os2 [] n hi2 hm2
          | cons v vs => simpa [scatter] using ih os2 vs n hi2 hm2
        | false => simpa [scatter] using ih os2 vals n hi2 hm2

lemma scatter_getD_true {α : Type} (ms : List Bool) (os vals : List α) (i : ℕ) (d : α)
    (hi : i < os.length) (hm : ms.getD i false = true)
    (hv : (ms.take i).count true < vals.length) :
    (scatter ms os vals).getD i d = vals.getD ((ms.take i).count true) d := by
  induction ms generalizing os vals i with
  | nil => cases os with
    | nil => simp at hi
    | cons o os2 => simp at hm
  | cons b t ih =>
    cases os with
    | nil => simp at hi
    | cons o os2 =>
      cases i with
      | zero =>
        simp at hm
        subst hm
        cases vals with
        | nil => simp at hv
        | cons v vs => simp [scatter]
      | succ n =>
        have hi2 : n < os2.length := by simpa using hi
        have hm2 : t.getD n false = true := by simpa using hm
        cases b with
        | true =>
          cases vals with
          | nil => simp at hv
          | cons v vs =>
            simp only [List.take_succ_cons, List.count_cons, beq_self_eq_true, if_true,
              List.length_cons] at hv ⊢
            have hv2 : (t.take n).count true < vs.length := by omega
            have := ih os2 vs n hi2 hm2 hv2
            simpa [scatter, Nat.add_comm] using this
        | false =>
          simp only [List.take_succ_cons, List.count_cons, scatter] at hv ⊢
          simpa using ih os2 vals n hi2 hm2 (by simpa using hv)

lemma msZ_length (data omega : List ℚ) (h : omega.length = data.length) :
    (msZ data omega).length = data.length := by
  simp [msZ, msRScore, msScoreState, vecNeg, vecSub, h]

lemma msSoftThresh_length (data omega thr : List ℚ) (hlo : omega.length = data.length)
    (hlt : thr.length = data.length) :
    (msSoftThresh data omega thr).length = data.length := by
  simp [msSoftThresh, msZ_length data omega hlo, hlt]

lemma msActive_length (data omega thr : List ℚ) (hlo : omega.length = data.length)
    (hlt : thr.length = data.length) :
    (msActive data omega thr).length = data.length := by
  simp [msActive, msSoftThresh_length data omega thr hlo hlt]

lemma msSoftThresh_getD (data omega thr : List ℚ) (i : ℕ)
    (hlo : omega.length = data.length) (hlt : thr.length = data.length)
    (hi : i < data.length) :
    (msSoftThresh data omega thr).getD i 0 =
      signQ ((msZ data omega).getD i 0) *
        (absQ ((msZ data omega).getD i 0) - thr.getD i 0) *
        (if absQ ((msZ data omega).getD i 0) ≥ thr.getD i 0 then 1 else 0) := by
  have hz := msZ_length data omega hlo
  exact getD_zipWith _ (msZ data omega) thr i 0 (by omega) (by omega)

/-- C4: in `marginal_screening.fit`, at any coordinate `i` whose threshold
is `1`: a perturbed statistic `Z_i = 0.5` is not selected, while `Z_i = 2`
is selected with `soft_thresh` value `2 - 1 = 1`, so the corresponding
entry of `observed_opt_state` (at `i`'s rank among the selected
coordinates) equals `1`, and the recorded selection sign is `+1`. -/
theorem ms_soft_threshold_cases (data omega thr : List ℚ) (i : ℕ)
    (hlo : omega.length = data.length) (hlt : thr.length = data.length)
    (hi : i < data.length) (hthr : thr.getD i 0 = 1) :
    ((msZ data omega).getD i 0 = 1/2 → (msActive data omega thr).getD i false = false) ∧
    ((msZ data omega).getD i 0 = 2 →
      (msActive data omega thr).getD i false = true ∧
      (msObservedOptState data omega thr).getD
        (((msActive data omega thr).take i).count true) 0 = 1 ∧
      (msSignVec data omega thr).getD i 0 = 1) := by
  have hz := msZ_length data omega hlo
  have hst := msSoftThresh_length data omega thr hlo hlt
  have hact := msActive_length data omega thr hlo hlt
  have hstg := msSoftThresh_getD data omega thr i hlo hlt hi
  constructor
  · intro hZ
    rw [hZ, hthr] at hstg
    have hval : (msSoftThresh data omega thr).getD i 0 = 0 := by
      rw [hstg]; norm_num [signQ, absQ]
    have : (msActive data omega thr).getD i false =
        decide ((msSoftThresh data omega thr).getD i 0 ≠ 0) :=
      getD_map_lt _ _ i 0 false (by omega)
    rw [this, hval]
    simp
  · intro hZ
    rw [hZ, hthr] at hstg
    have hval : (msSoftThresh data omega thr).getD i 0 = 1 := by
      rw [hstg]; norm_num [signQ, absQ]
    have hactg : (msActive data omega thr).getD i false = true := by
      have : (msActive data omega thr).getD i false =
          decide ((msSoftThresh data omega thr).getD i 0 ≠ 0) :=
        getD_map_lt _ _ i 0 false (by omega)
      rw [this, hval]; simp
    refine ⟨hactg, ?_, ?_⟩
    · have hrank : ((msActive data omega thr).take i).count true <
          (msActive data omega thr).count true :=
        count_take_lt _ i (by omega) hactg
      have hmsl : (maskSelect (msActive data omega thr)
          (msSoftThresh data omega thr)).length = (msActive data omega thr).count true :=
        maskSelect_length _ _ (by omega)
      have h1 : (msObservedOptState data omega thr).getD
          (((msActive data omega thr).take i).count true) 0 =
          absQ ((maskSelect (msActive data omega thr)
            (msSoftThresh data omega thr)).getD
            (((msActive data omega thr).take i).count true) 0) :=
        getD_map_lt _ _ _ 0 0 (by omega)
      rw [h1, maskSelect_getD _ _ i 0 (by omega) (by omega) hactg, hval]
      norm_num [absQ]
    · have hnm : ((msActive data omega thr).map (fun b => !b)).getD i false = false := by
        rw [getD_map_lt _ _ i false false (by omega), hactg]
        rfl
      have h2 : (msSignVec data omega thr).getD i 0 =
          ((msZ data omega).map signQ).getD i 0 :=
        scatter_getD_false _ _ _ i 0
          (by simpa [msZ, msRScore, msScoreState, vecNeg, vecSub, hlo] using hi) hnm
      rw [h2, getD_map_lt _ _ i 0 0 (by omega), hZ]
      norm_num [signQ]

/-- Witness for `ms_soft_threshold_cases`: executed at the one-coordinate
inputs `Z = 0.5` and `Z = 2` with threshold `1`. -/
theorem ms_soft_threshold_cases_witness :
    (msActive [1/2] [0] [1]).getD 0 false = false ∧
    ((msActive [2] [0] [1]).getD 0 false = true ∧
      (msObservedOptState [2] [0] [1]).getD (((msActive [2] [0] [1]).take 0).count true) 0
        = 1 ∧
      (msSignVec [2] [0] [1]).getD 0 0 = 1) :=
  ⟨(ms_soft_threshold_cases [1/2] [0] [1] 0 (by with_unfolding_all decide)
      (by with_unfolding_all decide) (by with_unfolding_all decide)
      (by with_unfolding_all decide)).1 (by with_unfolding_all decide),
   (ms_soft_threshold_cases [2] [0] [1] 0 (by with_unfolding_all decide)
      (by with_unfolding_all decide) (by with_unfolding_all decide)
      (by with_unfolding_all decide)).2 (by with_unfolding_all decide)⟩

lemma getD_replicate {α : Type} (a d : α) (n i : ℕ) (hi : i < n) :
    (List.replicate n a).getD i d = a := by
  induction n generalizing i with
  | zero => omega
  | succ m ih =>
    cases i with
    | zero => simp [List.replicate]
    | succ k => simpa [List.replicate] using ih k (by omega)

lemma getD_map_range {β : Type} (f : ℕ → β) (n i : ℕ) (d : β) (hi : i < n) :
    ((List.range n).map f).getD i d = f i := by
  rw [getD_map_lt f _ i 0 d (by simpa using hi)]
  congr 1
  rw [List.getD_eq_getElem _ 0 (by simpa using hi)]
  simp

lemma scatter_length {α : Type} (ms : List Bool) (os vals : List α) :
    (scatter ms os vals).length = os.length := by
  induction ms generalizing os vals with
  | nil => cases os <;> simp [scatter]
  | cons b t ih =>
    cases os with
    | nil => simp [scatter]
    | cons o os2 =>
      cases b with
      | true =>
        cases vals with
        | nil => simp [scatter, ih]
        | cons v vs => simp [scatter, ih]
      | false => simp [scatter, ih]

lemma msNumOptVar_eq_count (data omega thr : List ℚ) (hlo : omega.length = data.length)
    (hlt : thr.length = data.length) :
    msNumOptVar data omega thr = (msActive data omega thr).count true := by
  unfold msNumOptVar msObservedOptState
  rw [List.length_map, maskSelect_length]
  rw [msActive_length data omega thr hlo hlt, msSoftThresh_length data omega thr hlo hlt]

lemma msActiveSigns_length (data omega thr : List ℚ) (hlo : omega.length = data.length)
    (hlt : thr.length = data.length) :
    (msActiveSigns data omega thr).length = (msActive data omega thr).count true := by
  unfold msActiveSigns
  rw [maskSelect_length]
  rw [msActive_length data omega thr hlo hlt, List.length_map,
    msZ_length data omega hlo]

lemma msSignVec_getD_selected (data omega thr : List ℚ) (i : ℕ)
    (hlo : omega.length = data.length) (hlt : thr.length = data.length)
    (hi : i < data.length)
    (hact : (msActive data omega thr).getD i false = true) :
    (msSignVec data omega thr).getD i 0 = signQ ((msZ data omega).getD i 0) := by
  have hact2 := msActive_length data omega thr hlo hlt
  have hz := msZ_length data omega hlo
  have hnm : ((msActive data omega thr).map (fun b => !b)).getD i false = false := by
    rw [getD_map_lt _ _ i false false (by omega), hact]
    rfl
  have h2 : (msSignVec data omega thr).getD i 0 =
      ((msZ data omega).map signQ).getD i 0 :=
    scatter_getD_false _ _ _ i 0 (by simp [hz]; omega) hnm
  rw [h2, getD_map_lt _ _ i 0 0 (by omega)]

lemma msActiveSigns_getD (data omega thr : List ℚ) (i : ℕ)
    (hlo : omega.length = data.length) (hlt : thr.length = data.length)
    (hi : i < data.length)
    (hact : (msActive data omega thr).getD i false = true) :
    (msActiveSigns data omega thr).getD (((msActive data omega thr).take i).count true) 0
      = signQ ((msZ data omega).getD i 0) := by
  have hz := msZ_length data omega hlo
  have hact2 := msActive_length data omega thr hlo hlt
  unfold msActiveSigns
  rw [maskSelect_getD _ _ i 0 (by simp [hz]; omega) (by simp [hz]; omega) hact]
  exact getD_map_lt _ _ i 0 0 (by omega)

/-- C5 counterexample: at `observed_data = [-2]`, `omega = [0]`,
`threshold = [1]` the single coordinate is selected with sign `-1`, and the
selected row of `opt_offset` is `-1`, not the threshold `1`. -/
theorem ms_opt_offset_not_threshold :
    (msActive [-2] [0] [1]).getD 0 false = true ∧
    (msSignVec [-2] [0] [1]).getD 0 0 = -1 ∧
    (msOptOffset [-2] [0] [1]).getD 0 0 = -1 ∧
    (msOptOffset [-2] [0] [1]).getD 0 0 ≠ ([1] : List ℚ).getD 0 0 := by
  with_unfolding_all decide

/-- C5 (amended): after `marginal_screening.fit`, `opt_linear` is
diagonal-on-active-rows — for the `j`-th selected coordinate `i`, row `i`
of `opt_linear` has the selection sign of `i` in column `j` (its rank among
the selected coordinates) and zeros elsewhere, and every non-selected row
is zero — while `opt_offset` carries the selection sign times the threshold
on each selected row and the raw randomization-perturbed score
`_randomized_score` on each non-selected row. -/
theorem ms_affine_transform_structure (data omega thr : List ℚ) (i : ℕ)
    (hlo : omega.length = data.length) (hlt : thr.length = data.length)
    (hi : i < data.length) :
    ((msActive data omega thr).getD i false = false →
      (msOptLinear data omega thr).getD i [] = zerosV (msNumOptVar data omega thr) ∧
      (msOptOffset data omega thr).getD i 0 = (msRScore data omega).getD i 0) ∧
    ((msActive data omega thr).getD i false = true →
      (msOptLinear data omega thr).getD i [] =
        (List.range (msNumOptVar data omega thr)).map
          (fun c => if c = ((msActive data omega thr).take i).count true
            then (msSignVec data omega thr).getD i 0 else 0) ∧
      (msOptOffset data omega thr).getD i 0 =
        (msSignVec data omega thr).getD i 0 * thr.getD i 0) := by
  have hz := msZ_length data omega hlo
  have hact := msActive_length data omega thr hlo hlt
  have hst := msSoftThresh_length data omega thr hlo hlt
  have hsig := msActiveSigns_length data omega thr hlo hlt
  have hnum := msNumOptVar_eq_count data omega thr hlo hlt
  have hrs : (msRScore data omega).length = data.length := by
    simp [msRScore, msScoreState, vecNeg, vecSub, hlo]
  constructor
  · intro hsel
    constructor
    · have h1 : (msOptLinear data omega thr).getD i [] =
          (zerosM (msZ data omega).length (msNumOptVar data omega thr)).getD i [] :=
        scatter_getD_false _ _ _ i [] (by simp [zerosM, hz]; omega) hsel
      rw [h1]
      exact getD_replicate _ _ _ i (by omega)
    · have hnsel : ((msActive data omega thr).map (fun b => !b)).getD i false = true := by
        rw [getD_map_lt _ _ i false false (by omega), hsel]
        rfl
      have hcnt : (((msActive data omega thr).map (fun b => !b)).take i).count true <
          (maskSelect ((msActive data omega thr).map (fun b => !b))
            (msRScore data omega)).length := by
        rw [maskSelect_length _ _ (by rw [List.length_map]; omega)]
        exact count_take_lt _ i (by rw [List.length_map]; omega) hnsel
      have h1 : (msOptOffset data omega thr).getD i 0 =
          (maskSelect ((msActive data omega thr).map (fun b => !b))
            (msRScore data omega)).getD
            ((((msActive data omega thr).map (fun b => !b)).take i).count true) 0 := by
        unfold msOptOffset
        refine scatter_getD_true _ _ _ i 0 ?_ hnsel hcnt
        rw [scatter_length]
        simp [zerosV, hz]; omega
      rw [h1]
      exact maskSelect_getD _ _ i 0 (by rw [List.length_map]; omega) (by omega) hnsel
  · intro hsel
    have hrank : ((msActive data omega thr).take i).count true <
        (msActive data omega thr).count true :=
      count_take_lt _ i (by omega) hsel
    constructor
    · have h1 : (msOptLinear data omega thr).getD i [] =
          (npDiag (msActiveSigns data omega thr)).getD
            (((msActive data omega thr).take i).count true) [] := by
        unfold msOptLinear
        refine scatter_getD_true _ _ _ i [] (by simp [zerosM, hz]; omega) hsel ?_
        simp only [npDiag, List.length_map, List.length_range]
        omega
      rw [h1]
      unfold npDiag
      rw [getD_map_range _ _ _ [] (by omega)]
      rw [hnum, hsig]
      refine List.map_congr_left (fun c _ => ?_)
      rw [msActiveSigns_getD data omega thr i hlo hlt hi hsel,
        msSignVec_getD_selected data omega thr i hlo hlt hi hsel]
    · have hnsel : ((msActive data omega thr).map (fun b => !b)).getD i false = false := by
        rw [getD_map_lt _ _ i false false (by omega), hsel]
        rfl
      have hmthr : (maskSelect (msActive data omega thr) thr).length =
          (msActive data omega thr).count true :=
        maskSelect_length _ _ (by omega)
      have h1 : (msOptOffset data omega thr).getD i 0 =
          (scatter (msActive data omega thr) (zerosV (msZ data omega).length)
            (vecMul (msActiveSigns data omega thr)
              (maskSelect (msActive data omega thr) thr))).getD i 0 := by
        unfold msOptOffset
        refine scatter_getD_false _ _ _ i 0 ?_ hnsel
        rw [scatter_length]
        simp [zerosV, hz]; omega
      rw [h1]
      have h2 : (scatter (msActive data omega thr) (zerosV (msZ data omega).length)
          (vecMul (msActiveSigns data omega thr)
            (maskSelect (msActive data omega thr) thr))).getD i 0 =
          (vecMul (msActiveSigns data omega thr)
            (maskSelect (msActive data omega thr) thr)).getD
            (((msActive data omega thr).take i).count true) 0 := by
        refine scatter_getD_true _ _ _ i 0 (by simp [zerosV, hz]; omega) hsel ?_
        unfold vecMul
        rw [List.length_zipWith, hsig, hmthr]
        simpa using hrank
      rw [h2]
      unfold vecMul
      rw [getD_zipWith _ _ _ _ 0 (by omega) (by omega)]
      rw [msActiveSigns_getD data omega thr i hlo hlt hi hsel,
        msSignVec_getD_selected data omega thr i hlo hlt hi hsel,
        maskSelect_getD _ _ i 0 (by omega) (by omega) hsel]

/-- Witness for `ms_affine_transform_structure`: executed at the
two-coordinate input with `Z = [-2, 1/2]`, thresholds `1`: coordinate 0 is
selected with sign `-1` (offset `-1`, row `[-1]`), coordinate 1 is not
(zero row, offset carries the perturbed score `-1/2`). -/
theorem ms_affine_transform_structure_witness :
    ((msActive [-2, 1/2] [0, 0] [1, 1]).getD 1 false = false →
      (msOptLinear [-2, 1/2] [0, 0] [1, 1]).getD 1 [] =
        zerosV (msNumOptVar [-2, 1/2] [0, 0] [1, 1]) ∧
      (msOptOffset [-2, 1/2] [0, 0] [1, 1]).getD 1 0 =
        (msRScore [-2, 1/2] [0, 0]).getD 1 0) ∧
    ((msActive [-2, 1/2] [0, 0] [1, 1]).getD 0 false = true →
      (msOptLinear [-2, 1/2] [0, 0] [1, 1]).getD 0 [] =
        (List.range (msNumOptVar [-2, 1/2] [0, 0] [1, 1])).map
          (fun c => if c = ((msActive [-2, 1/2] [0, 0] [1, 1]).take 0).count true
            then (msSignVec [-2, 1/2] [0, 0] [1, 1]).getD 0 0 else 0) ∧
      (msOptOffset [-2, 1/2] [0, 0] [1, 1]).getD 0 0 =
        (msSignVec [-2, 1/2] [0, 0] [1, 1]).getD 0 0 *
          ([1, 1] : List ℚ).getD 0 0) :=
  ⟨(ms_affine_transform_structure [-2, 1/2] [0, 0] [1, 1] 1
      (by with_unfolding_all decide) (by with_unfolding_all decide)
      (by with_unfolding_all decide)).1,
   (ms_affine_transform_structure [-2, 1/2] [0, 0] [1, 1] 0
      (by with_unfolding_all decide) (by with_unfolding_all decide)
      (by with_unfolding_all decide)).2⟩

lemma maskSelect_all_false {α : Type} (mask : List Bool) (v : List α)
    (h : ∀ b ∈ mask, b = false) : maskSelect mask v = [] := by
  induction mask generalizing v with
  | nil => simp [maskSelect]
  | cons b ms ih =>
    cases v with
    | nil => simp [maskSelect]
    | cons a vs =>
      have hb : b = false := h b (by simp)
      subst hb
      rw [maskSelect_cons_false]
      exact ih vs (fun x hx => h x (by simp [hx]))

lemma scatter_vals_nil {α : Type} (ms : List Bool) (os : List α) :
    scatter ms os [] = os := by
  induction ms generalizing os with
  | nil => cases os <;> simp [scatter]
  | cons b t ih =>
    cases os with
    | nil => simp [scatter]
    | cons o os2 => cases b <;> simp [scatter, ih]

lemma transposeM_zeros_zero (n : ℕ) : transposeM (zerosM n 0) = [] := by
  cases n with
  | zero => rfl
  | succ m => rfl

lemma getD_mem {α : Type} (l : List α) (i : ℕ) (d : α) (hi : i < l.length) :
    l.getD i d ∈ l := by
  rw [List.getD_eq_getElem _ _ hi]
  exact List.getElem_mem hi

lemma slopeSorted_all_zero (soln : List ℚ) (h : ∀ x ∈ soln, x = 0) (t : ℕ) :
    (slopeSorted soln).getD t 0 = 0 := by
  have hmemz : ∀ x ∈ slopeSorted soln, x = 0 := by
    intro x hx
    unfold slopeSorted at hx
    obtain ⟨i, hi, hval⟩ := List.mem_map.mp hx
    by_cases hlt : i < soln.length
    · rw [← hval]
      exact h _ (getD_mem _ i 0 hlt)
    · rw [← hval, List.getD_eq_default]
      omega
  by_cases ht : t < (slopeSorted soln).length
  · exact hmemz _ (getD_mem _ t 0 ht)
  · rw [List.getD_eq_default]
    omega

lemma slopeLoopAux_all_zero (soln : List ℚ) (indices : List ℕ) (sorted : List ℚ)
    (p : ℕ) (hz : ∀ t, sorted.getD t 0 = 0) :
    ∀ fuel j st, slopeLoopAux soln indices sorted p fuel j st = st := by
  intro fuel
  induction fuel with
  | zero => intro j st; rfl
  | succ n ih =>
    intro j st
    unfold slopeLoopAux
    rw [if_neg]
    · exact ih (j + 1) st
    · rw [hz (j + 1), hz st.curIndx]
      simp

/-- C3 counterexample: a marginal-screening input whose thresholded
solution is entirely zero (empty active set), on which `fit` returns
normally rather than failing. -/
theorem ms_fit_empty_selection_returns :
    msSoftThresh [0] [0] [1] = [0] ∧
    (msActive [0] [0] [1]).count true = 0 ∧
    (msFit [0] [0] [1] 1).isSome = true := by
  with_unfolding_all decide

/-- C3 (amended): on an empty active set the two builders diverge.  In
`randomized_slope.fit`, an all-zero solution leaves `signs_cluster` empty,
so forming `opt_linear` is a mismatched `dot` and `fit` fails (a numpy
shape error — no `DegenerateSelection` error exists in the code).  In
`marginal_screening.fit`, an empty active set does not fail: the `0 × 0`
`cond_precision` inverts (numpy convention) and `fit` returns normally with
`num_opt_var = 0`. -/
theorem degenerate_selection_behaviour :
    (∀ oc X p ridge prec omega, (∀ x ∈ oc.solveProblem omega, x = 0) → X ≠ [] →
      (oc.solveProblem omega).length = p → 1 ≤ p →
      slopeFit oc X p ridge prec omega = none) ∧
    (∀ data omega thr prec, omega.length = data.length → thr.length = data.length →
      (msActive data omega thr).count true = 0 →
      ∃ r, msFit data omega thr prec = some r ∧ r.numOptVar = 0) := by
  constructor
  · intro oc X p ridge prec omega hz hX hlen hp
    have hsc : (slopeLoopAux (oc.solveProblem omega) (slopeIndices (oc.solveProblem omega))
        (slopeSorted (oc.solveProblem omega)) p (p - 1) 0 slopeLoopInit).signsCluster
        = [] := by
      rw [slopeLoopAux_all_zero _ _ _ p (slopeSorted_all_zero _ hz)]
      rfl
    have h2 : matMulOpt
        (X.map (fun row => (slopeIndices (oc.solveProblem omega)).map
          (fun i => row.getD i 0)))
        (transposeM (slopeLoopAux (oc.solveProblem omega)
          (slopeIndices (oc.solveProblem omega)) (slopeSorted (oc.solveProblem omega))
          p (p - 1) 0 slopeLoopInit).signsCluster) = none := by
      rw [hsc]
      have htr : transposeM ([] : List (List ℚ)) = [] := rfl
      rw [htr]
      unfold matMulOpt
      rw [if_neg]
      intro hall
      rcases X with _ | ⟨x0, xs⟩
      · exact hX rfl
      · simp only [List.map_cons, List.all_cons, Bool.and_eq_true, decide_eq_true_eq,
          List.length_map, List.length_nil] at hall
        have h4 : (slopeIndices (oc.solveProblem omega)).length = p := by
          unfold slopeIndices argsortL
          rw [List.length_insertionSort]
          simp [vecNeg, hlen]
        omega
    unfold slopeFit
    cases h1 : matMulOpt (transposeM X)
        ((X.zip (oc.hessDiag (matVec X (scatter (slopeActive (oc.solveProblem omega))
          (zerosV p) (oc.restrictedEst (slopeActive (oc.solveProblem omega))))))).map
          (fun rw => (maskSelect (slopeActive (oc.solveProblem omega)) rw.1).map
            (fun x => x * rw.2))) with
    | none => simp [bind, h1]
    | some m1 =>
      simp only [bind, h1, Option.some_bind]
      rw [h2]
      rfl
  · intro data omega thr prec hlo hlt hcnt
    have hall : ∀ b ∈ msActive data omega thr, b = false := by
      intro b hb
      cases b with
      | false => rfl
      | true => exact absurd hb (List.count_eq_zero.mp hcnt)
    have hsigns : msActiveSigns data omega thr = [] :=
      maskSelect_all_false _ _ hall
    have hobs : msObservedOptState data omega thr = [] := by
      unfold msObservedOptState
      rw [maskSelect_all_false _ _ hall]
      rfl
    have hnum0 : msNumOptVar data omega thr = 0 := by
      unfold msNumOptVar
      rw [hobs]
      rfl
    have hopt : msOptLinear data omega thr = zerosM (msZ data omega).length 0 := by
      unfold msOptLinear
      rw [hsigns, hnum0]
      show scatter _ _ [] = _
      exact scatter_vals_nil _ _
    have ht : transposeM (msOptLinear data omega thr) = [] := by
      rw [hopt]
      exact transposeM_zeros_zero _
    have hmm : matMulOpt (transposeM (msOptLinear data omega thr))
        (msOptLinear data omega thr) = some [] := by
      rw [ht]
      rfl
    have hmm2 : matMulOpt ([] : List (List ℚ)) (transposeM (msOptLinear data omega thr))
        = some [] := rfl
    have hinv : invM (matScale prec []) = some [] := by
      show invM [] = some []
      unfold invM detM detAux
      norm_num
    have hfit : msFit data omega thr prec = some
        { initialSoln := msSoftThresh data omega thr
          selected := msActive data omega thr
          signVec := msSignVec data omega thr
          observedOptState := msObservedOptState data omega thr
          numOptVar := msNumOptVar data omega thr
          optLinear := msOptLinear data omega thr
          optOffset := msOptOffset data omega thr
          condPrecision := matScale prec []
          condCov := []
          logdensLinear := matScale prec []
          condMean := matVec (matScale prec [])
            (vecSub (vecNeg (msScoreState data)) (msOptOffset data omega thr))
          aScaling := matNeg (npIdentity (msActiveSigns data omega thr).length)
          bScaling := zerosV (msNumOptVar data omega thr) } := by
      unfold msFit
      simp only [bind]
      rw [hmm]
      simp only [Option.some_bind]
      rw [hinv]
      simp only [Option.some_bind]
      rw [hmm2]
      simp only [Option.some_bind]
      rfl
    exact ⟨_, hfit, hnum0⟩

/-- Witness for `degenerate_selection_behaviour`: a concrete all-zero SLOPE
solution makes `fit` fail, and a concrete empty marginal screening
returns normally. -/
theorem degenerate_selection_behaviour_witness :
    slopeFit
      { solveProblem := fun _ => [0, 0], restrictedEst := fun _ => []
        hessDiag := fun _ => [1], gradAt := fun _ => [0, 0] }
      [[1, 0]] 2 0 1 [0, 0] = none ∧
    (msFit [0] [0] [1] 1).isSome = true := by
  constructor
  · exact degenerate_selection_behaviour.1
      { solveProblem := fun _ => [0, 0], restrictedEst := fun _ => []
        hessDiag := fun _ => [1], gradAt := fun _ => [0, 0] }
      [[1, 0]] 2 0 1 [0, 0] (by with_unfolding_all decide)
      (by with_unfolding_all decide) (by with_unfolding_all decide)
      (by with_unfolding_all decide)
  · obtain ⟨r, hr, h0⟩ := degenerate_selection_behaviour.2 [0] [0] [1] 1
      (by with_unfolding_all decide) (by with_unfolding_all decide)
      (by with_unfolding_all decide)
    rw [hr]
    rfl

/-- C8 counterexample: `selected_targets` with unspecified dispersion on a
problem with `n = 1` observation and one target feature (zero residual
degrees of freedom) returns normally, with dispersion `+inf` (numpy float
division by zero), instead of failing. -/
theorem selected_targets_zero_dof_returns :
    (selectedTargets [[1]] [1] [1] [0] [0] (fun x => x) [true] none).map
      TargetBundle.dispersion = some FloatQ.posInf := by
  with_unfolding_all decide

/-- C8 (amended): when `dispersion` is unspecified and the number of
observations equals the number of target features, `selected_targets` does
not fail: it returns normally and the Pearson dispersion it computes is a
division by zero, hence non-finite (`inf`/`-inf`/`nan`), not a (finite)
dispersion estimate. -/
theorem dispersion_zero_dof_nonfinite (X : List (List ℚ)) (y W soln gradSoln : List ℚ)
    (meanFn : ℚ → ℚ) (features : List Bool) (r : TargetBundle)
    (hdof : X.length = features.count true)
    (h : selectedTargets X y W soln gradSoln meanFn features none = some r) :
    r.dispersion.isFinite = false := by
  unfold selectedTargets at h
  simp only [bind, Option.bind_eq_some, Option.pure_def, Option.some.injEq] at h
  obtain ⟨m1, hm1, m2, hm2, m3, hm3, m4, hm4, hr⟩ := h
  subst hr
  show (fdivZ _ ((X.length : ℤ) - (features.count true : ℤ))).isFinite = false
  rw [hdof]
  unfold fdivZ
  rw [if_pos (by ring)]
  split_ifs <;> rfl

/-- Witness for `dispersion_zero_dof_nonfinite`: the concrete `n = 1`,
one-feature instance. -/
theorem dispersion_zero_dof_nonfinite_witness :
    ∃ r, selectedTargets [[1]] [1] [1] [0] [0] (fun x => x) [true] none = some r ∧
      r.dispersion.isFinite = false := by
  cases hfit : selectedTargets [[1]] [1] [1] [0] [0] (fun x => x) [true] none with
  | none =>
    have h2 : (selectedTargets [[1]] [1] [1] [0] [0] (fun x => x) [true] none).isSome
        = true := by with_unfolding_all decide
    rw [hfit] at h2
    exact absurd h2 (by decide)
  | some r =>
    exact ⟨r, rfl,
      dispersion_zero_dof_nonfinite [[1]] [1] [1] [0] [0] (fun x => x) [true] r
        (by with_unfolding_all decide) hfit⟩

lemma maskSelect_map_pred {α : Type} (pred : α → Bool) (l : List α) :
    maskSelect (l.map pred) l = l.filter pred := by
  induction l with
  | nil => rfl
  | cons a t ih =>
    cases hp : pred a with
    | true =>
      rw [List.map_cons, hp, maskSelect_cons_true, ih, List.filter_cons, if_pos (by simp [hp])]
    | false =>
      rw [List.map_cons, hp, maskSelect_cons_false, ih, List.filter_cons,
        if_neg (by simp [hp])]

lemma maxD_mem (l : List ℕ) (h : l ≠ []) : maxD l ∈ l := by
  cases l with
  | nil => exact absurd rfl h
  | cons a t =>
    show t.foldl max a ∈ a :: t
    clear h
    induction t generalizing a with
    | nil => simp [List.foldl]
    | cons b t2 ih =>
      have h2 := ih (max a b)
      rcases max_choice a b with hm | hm <;>
        rw [List.foldl_cons] <;> rcases List.mem_cons.mp h2 with h3 | h3 <;>
          simp [hm] at h3 ⊢ <;> simp [h3]

lemma maxD_ge (l : List ℕ) : ∀ x ∈ l, x ≤ maxD l := by
  cases l with
  | nil => simp
  | cons a t =>
    show ∀ x ∈ a :: t, x ≤ t.foldl max a
    induction t generalizing a with
    | nil =>
      intro x hx
      simp at hx
      simp [hx, List.foldl]
    | cons b t2 ih =>
      intro x hx
      rw [List.foldl_cons]
      have hfold : max a b ≤ List.foldl max (max a b) t2 :=
        ih (max a b) (max a b) (by simp)
      rcases List.mem_cons.mp hx with h3 | h3
      · subst h3
        exact le_trans (le_max_left _ _) hfold
      · rcases List.mem_cons.mp h3 with h4 | h4
        · subst h4
          exact le_trans (le_max_right _ _) hfold
        · exact ih (max a b) x (List.mem_cons_of_mem _ h4)

lemma BH_orderSig_filter (pval : List ℚ) (level : ℚ) :
    maskSelect (BH_mask pval level) (List.range pval.length) =
      (List.range pval.length).filter
        (fun (i : ℕ) => decide ((npSort pval).getD i 0 -
          level * ((i : ℚ) + 1) / (2 * (pval.length : ℚ)) ≤ 0)) := by
  unfold BH_mask
  exact maskSelect_map_pred _ _

/-- C10: whenever `BH_q` returns a non-`None` result, it returns the first
`k` sorted p-values and the first `k` argsort indices, where `k` is the
largest 0-based index `i` with `p_sorted[i] <= level * (i+1) / (2m)` —
rank `k` itself excluded by the slice; in particular when only the
smallest p-value meets its bound (`k = 0`) both returned arrays are
empty. -/
theorem BH_q_returns_take_k (pval : List ℚ) (level : ℚ) (res : List ℚ × List ℕ)
    (h : BH_q pval level = some res) :
    ∃ k, k < pval.length ∧
      (npSort pval).getD k 0 ≤ level * ((k : ℚ) + 1) / (2 * (pval.length : ℚ)) ∧
      (∀ j, j < pval.length →
        (npSort pval).getD j 0 ≤ level * ((j : ℚ) + 1) / (2 * (pval.length : ℚ)) →
        j ≤ k) ∧
      res = ((npSort pval).take k, (argsortL pval).take k) := by
  unfold BH_q at h
  by_cases hc : ((BH_mask pval level).any id) = true
  · rw [if_pos hc] at h
    have hne : maskSelect (BH_mask pval level) (List.range pval.length) ≠ [] := by
      rw [BH_orderSig_filter]
      unfold BH_mask at hc
      obtain ⟨b, hb, hbt⟩ := List.any_eq_true.mp hc
      obtain ⟨i, hi, hib⟩ := List.mem_map.mp hb
      refine List.ne_nil_of_mem (a := i) ?_
      rw [List.mem_filter]
      refine ⟨hi, ?_⟩
      rw [← hib] at hbt
      simpa using hbt
    have hfil : BH_orderSig pval level ∈ (List.range pval.length).filter
        (fun (i : ℕ) => decide ((npSort pval).getD i 0 -
          level * ((i : ℚ) + 1) / (2 * (pval.length : ℚ)) ≤ 0)) := by
      rw [← BH_orderSig_filter]
      exact maxD_mem _ hne
    rw [List.mem_filter, List.mem_range, decide_eq_true_eq] at hfil
    refine ⟨BH_orderSig pval level, hfil.1, by linarith [hfil.2], ?_,
      (Option.some_inj.mp h).symm⟩
    intro j hj hcond
    refine maxD_ge _ j ?_
    rw [BH_orderSig_filter, List.mem_filter, List.mem_range, decide_eq_true_eq]
    exact ⟨hj, by linarith⟩
  · rw [if_neg hc] at h
    exact absurd h (by simp)

/-- Witness for `BH_q_returns_take_k`, at the `k = 0` special case: with
p-values `[1/100, 9/10]` and level `1/10` only the smallest sorted p-value
meets its bound, and `BH_q` returns two empty arrays. -/
theorem BH_q_returns_take_k_witness :
    BH_q [1/100, 9/10] (1/10) = some ([], []) ∧
    ∃ k, k < ([1/100, 9/10] : List ℚ).length ∧
      (npSort [1/100, 9/10]).getD k 0 ≤
        (1/10 : ℚ) * ((k : ℚ) + 1) / (2 * (([1/100, 9/10] : List ℚ).length : ℚ)) ∧
      (∀ j, j < ([1/100, 9/10] : List ℚ).length →
        (npSort [1/100, 9/10]).getD j 0 ≤
          (1/10 : ℚ) * ((j : ℚ) + 1) / (2 * (([1/100, 9/10] : List ℚ).length : ℚ)) →
        j ≤ k) ∧
      (([], []) : List ℚ × List ℕ) =
        ((npSort [1/100, 9/10]).take k, (argsortL [1/100, 9/10]).take k) :=
  ⟨by with_unfolding_all decide,
   BH_q_returns_take_k [1/100, 9/10] (1/10) ([], []) (by with_unfolding_all decide)⟩

lemma minD_mem (l : List ℚ) (h : l ≠ []) : minD l ∈ l := by
  cases l with
  | nil => exact absurd rfl h
  | cons a t =>
    show t.foldl min a ∈ a :: t
    clear h
    induction t generalizing a with
    | nil => simp [List.foldl]
    | cons b t2 ih =>
      have h2 := ih (min a b)
      rcases min_choice a b with hm | hm <;>
        rw [List.foldl_cons] <;> rcases List.mem_cons.mp h2 with h3 | h3 <;>
          simp [hm] at h3 ⊢ <;> simp [h3]

lemma sorted_getD_zero_le (l : List ℚ) (hs : List.Sorted (· ≤ ·) l) (i : ℕ) (d : ℚ)
    (hi : i < l.length) : l.getD 0 d ≤ l.getD i d := by
  cases l with
  | nil => simp at hi
  | cons a t =>
    cases i with
    | zero => exact le_refl _
    | succ n =>
      have hrel := List.rel_of_sorted_cons hs
      have hn : n < t.length := by simpa using hi
      exact hrel _ (getD_mem t n d hn)

lemma npSort_sorted (pv : List ℚ) : List.Sorted (· ≤ ·) (npSort pv) :=
  List.sorted_insertionSort _ pv

lemma npSort_mem (pv : List ℚ) (x : ℚ) (hx : x ∈ npSort pv) : x ∈ pv :=
  (List.perm_insertionSort _ pv).subset hx

lemma npSort_length (pv : List ℚ) : (npSort pv).length = pv.length :=
  List.length_insertionSort _ pv

lemma argsortL_length (v : List ℚ) : (argsortL v).length = v.length := by
  unfold argsortL
  rw [List.length_insertionSort, List.length_range]

lemma maskSelect_headD {α : Type} (mask : List Bool) (v : List α) (d : α)
    (hm : mask.getD 0 false = true) (hv : v ≠ []) :
    (maskSelect mask v).headD d = v.headD d := by
  cases mask with
  | nil => simp at hm
  | cons b ms =>
    cases v with
    | nil => exact absurd rfl hv
    | cons a vs =>
      simp at hm
      subst hm
      rw [maskSelect_cons_true]
      rfl

lemma simes_sorted_head_le (pv : List ℚ) (alpha : ℚ) (hne : pv ≠ [])
    (hpos : ∀ x ∈ pv, 0 ≤ x) (hc : simesP pv ≤ alpha / 2) :
    (npSort pv).getD 0 0 ≤ alpha / 2 := by
  have hp : 1 ≤ pv.length := List.length_pos.mpr hne
  have hvne : ((List.range pv.length).map
      (fun (r : ℕ) => ((pv.length : ℚ) / ((r : ℚ) + 1)) * (npSort pv).getD r 0)) ≠ [] := by
    simp only [ne_eq, List.map_eq_nil_iff, List.range_eq_nil]
    omega
  have hmem := minD_mem _ hvne
  obtain ⟨r, hr, hfr⟩ := List.mem_map.mp hmem
  rw [List.mem_range] at hr
  have hsortlen : r < (npSort pv).length := by rw [npSort_length]; exact hr
  have h0r : (npSort pv).getD 0 0 ≤ (npSort pv).getD r 0 :=
    sorted_getD_zero_le _ (npSort_sorted pv) r 0 hsortlen
  have hnn : 0 ≤ (npSort pv).getD r 0 :=
    hpos _ (npSort_mem pv _ (getD_mem _ r 0 hsortlen))
  have hfac : 1 ≤ (pv.length : ℚ) / ((r : ℚ) + 1) := by
    rw [one_le_div (by positivity)]
    have : (r : ℚ) + 1 ≤ (pv.length : ℚ) := by
      have : (r + 1 : ℕ) ≤ pv.length := hr
      exact_mod_cast this
    exact this
  have hle2 : (npSort pv).getD r 0 ≤ simesP pv := by
    unfold simesP
    rw [← hfr]
    exact le_mul_of_one_le_left hnn hfac
  linarith

lemma simes_some_i0 (Tstats pv : List ℚ) (alpha : ℚ) (hne : pv ≠ [])
    (hpos : ∀ x ∈ pv, 0 ≤ x) (hc : simesP pv ≤ alpha / 2) :
    ∃ r, simes_selection Tstats pv alpha = some r ∧ r.i0 = (argsortL pv).headD 0 := by
  have hp : 1 ≤ pv.length := List.length_pos.mpr hne
  have hmask0 : (((List.range pv.length).map
      (fun r => decide ((npSort pv).getD r 0 ≤ alpha / 2)))).getD 0 false = true := by
    rw [getD_map_lt _ _ 0 0 false (by simpa using hp)]
    have h0 : (List.range pv.length).getD 0 0 = 0 := by
      rw [List.getD_eq_getElem _ _ (by simpa using hp)]
      simp
    rw [h0, decide_eq_true_eq]
    exact simes_sorted_head_le pv alpha hne hpos hc
  have hargne : argsortL pv ≠ [] := by
    intro hnil
    have := argsortL_length pv
    rw [hnil] at this
    simp at this
    omega
  have hi0 : (simesSignificant pv alpha).headD 0 = (argsortL pv).headD 0 := by
    unfold simesSignificant
    exact maskSelect_headD _ _ 0 hmask0 hargne
  unfold simes_selection
  rw [if_pos hc]
  by_cases ht : (simesT0s pv alpha).headD 0 > 0
  · rw [if_pos ht]
    exact ⟨_, rfl, hi0⟩
  · rw [if_neg ht]
    exact ⟨_, rfl, hi0⟩

/-- C6: for fixed data and a fixed randomization draw (equivalently, fixed
randomized p-values `pv`), the active selection of `simes_selection` is
monotone in `alpha`: if the call returns `None` at `alpha2` it returns
`None` at every `alpha1 <= alpha2`, and when both calls select, the
selected active index `i_0` is the same (the index of the smallest
randomized p-value), so the active set at `alpha1` is contained in the
active set at `alpha2`. -/
theorem simes_selection_monotone (Tstats pv : List ℚ) (alpha1 alpha2 : ℚ)
    (hne : pv ≠ []) (hpos : ∀ x ∈ pv, 0 ≤ x) (hle : alpha1 ≤ alpha2) :
    (simes_selection Tstats pv alpha2 = none → simes_selection Tstats pv alpha1 = none) ∧
    (∀ r1, simes_selection Tstats pv alpha1 = some r1 →
      ∃ r2, simes_selection Tstats pv alpha2 = some r2 ∧ r1.i0 = r2.i0) := by
  constructor
  · intro h2
    by_cases hc2 : simesP pv ≤ alpha2 / 2
    · obtain ⟨r, hr, h⟩ := simes_some_i0 Tstats pv alpha2 hne hpos hc2
      rw [hr] at h2
      exact absurd h2 (by simp)
    · unfold simes_selection
      rw [if_neg (fun hc1 => hc2 (le_trans hc1 (by linarith)))]
  · intro r1 h1
    by_cases hc1 : simesP pv ≤ alpha1 / 2
    · obtain ⟨r1b, hr1, hi1⟩ := simes_some_i0 Tstats pv alpha1 hne hpos hc1
      have heq : r1 = r1b := by
        rw [h1] at hr1
        exact Option.some_inj.mp hr1
      obtain ⟨r2, hr2, hi2⟩ := simes_some_i0 Tstats pv alpha2 hne hpos
        (le_trans hc1 (by linarith))
      exact ⟨r2, hr2, by rw [heq, hi1, hi2]⟩
    · unfold simes_selection at h1
      rw [if_neg hc1] at h1
      exact absurd h1 (by simp)

/-- Witness for `simes_selection_monotone`: p-values `[1/10, 1]`,
`alpha1 = 2/5 <= alpha2 = 1/2`; both calls select and return the same
active index `i_0 = 0`. -/
theorem simes_selection_monotone_witness :
    ∃ r2, simes_selection [1, 2] [1/10, 1] (1/2) = some r2 ∧
      (SimesResult.mk 0 [-1] 0 1 [1]).i0 = r2.i0 :=
  (simes_selection_monotone [1, 2] [1/10, 1] (2/5) (1/2)
      (by with_unfolding_all decide) (by with_unfolding_all decide)
      (by with_unfolding_all decide)).2
    (SimesResult.mk 0 [-1] 0 1 [1]) (by with_unfolding_all decide)

/-! ## Cluster-count analysis for C9 -/

/-- Proof-side characterization of the clustering loop's remaining cluster
count from position `j`, indexed like the loop (`fuel` remaining
iterations). -/
def descentsFromAux (S : List ℚ) : ℕ → ℕ → ℕ
  | 0, _ => 0
  | fuel + 1, j =>
    if absQ (S.getD (j + 1) 0) ≠ absQ (S.getD j 0) then
      if S.getD (j + 1) 0 = 0 then 1 else 1 + descentsFromAux S fuel (j + 1)
    else descentsFromAux S fuel (j + 1)

/-- Structural version of `descentsFromAux`: magnitude changes along the
list, counting the change into a zero but stopping there. -/
def absDescents : List ℚ → ℕ
  | a :: b :: rest =>
    if absQ b ≠ absQ a then
      if b = 0 then 1 else 1 + absDescents (b :: rest)
    else absDescents (b :: rest)
  | _ => 0

lemma slopeLoopAux_count (soln : List ℚ) (indices : List ℕ) (S : List ℚ) (p : ℕ) :
    ∀ fuel j st, absQ (S.getD st.curIndx 0) = absQ (S.getD j 0) →
      ((slopeLoopAux soln indices S p fuel j st).signsCluster).length =
        st.signsCluster.length + descentsFromAux S fuel j := by
  intro fuel
  induction fuel with
  | zero => intro j st h; simp [slopeLoopAux, descentsFromAux]
  | succ n ih =>
    intro j st h
    unfold slopeLoopAux descentsFromAux
    by_cases hcond : absQ (S.getD (j + 1) 0) ≠ absQ (S.getD st.curIndx 0)
    · have hcond2 : absQ (S.getD (j + 1) 0) ≠ absQ (S.getD j 0) := by
        rw [← h]; exact hcond
      rw [if_pos hcond, if_pos hcond2]
      by_cases h0 : S.getD (j + 1) 0 = 0
      · rw [if_pos h0, if_pos h0]
        simp [slopeLoopStep]
      · rw [if_neg h0, if_neg h0]
        rw [ih (j + 1) (slopeLoopStep soln indices p j st) rfl]
        simp [slopeLoopStep]
        omega
    · have hcond2 : ¬absQ (S.getD (j + 1) 0) ≠ absQ (S.getD j 0) := by
        rw [← h]; exact hcond
      rw [if_neg hcond, if_neg hcond2]
      exact ih (j + 1) st ((not_ne_iff.mp hcond).symm)

lemma descentsFromAux_eq_absDescents (S : List ℚ) :
    ∀ fuel j, j + fuel + 1 = S.length →
      descentsFromAux S fuel j = absDescents (S.drop j) := by
  intro fuel
  induction fuel with
  | zero =>
    intro j hj
    have hdrop : (S.drop j).length = 1 := by
      rw [List.length_drop]
      omega
    rcases hd : S.drop j with _ | ⟨a, t⟩
    · simp [descentsFromAux, absDescents]
    · rcases ht : t with _ | ⟨b, t2⟩
      · simp [descentsFromAux, absDescents]
      · rw [hd, ht] at hdrop
        simp at hdrop
  | succ n ih =>
    intro j hj
    have hj1 : j < S.length := by omega
    have hj2 : j + 1 < S.length := by omega
    have hdropj : S.drop j = S.getD j 0 :: S.drop (j + 1) := by
      rw [List.getD_eq_getElem _ _ hj1]
      exact List.drop_eq_getElem_cons hj1
    have hdropj1 : S.drop (j + 1) = S.getD (j + 1) 0 :: S.drop (j + 2) := by
      rw [List.getD_eq_getElem _ _ hj2]
      exact List.drop_eq_getElem_cons hj2
    rw [hdropj, hdropj1]
    unfold descentsFromAux absDescents
    rw [← hdropj1]
    by_cases hcond : absQ (S.getD (j + 1) 0) ≠ absQ (S.getD j 0)
    · rw [if_pos hcond, if_pos hcond]
      by_cases h0 : S.getD (j + 1) 0 = 0
      · rw [if_pos h0, if_pos h0]
      · rw [if_neg h0, if_neg h0, ih (j + 1) (by omega), hdropj1]
    · rw [if_neg hcond, if_neg hcond, ih (j + 1) (by omega), hdropj1]

lemma absQ_nonneg (x : ℚ) : 0 ≤ absQ x := by
  unfold absQ
  split_ifs with h
  · linarith
  · linarith

lemma absQ_eq_zero (x : ℚ) : absQ x = 0 ↔ x = 0 := by
  unfold absQ
  split_ifs with h
  · constructor
    · intro h2; linarith
    · intro h2; linarith
  · constructor
    · intro h2; exact h2
    · intro h2; exact h2

lemma absDescents_eq_dedup (S : List ℚ)
    (hpw : List.Pairwise (fun a b => absQ b ≤ absQ a) S)
    (hz : ∃ x ∈ S, x = 0) :
    absDescents S =
      ((S.filter (fun x => decide (x ≠ 0))).map absQ).dedup.length := by
  induction S with
  | nil => simp at hz
  | cons a t ih =>
    rcases List.pairwise_cons.mp hpw with ⟨hafirst, hpwt⟩
    cases t with
    | nil =>
      have ha : a = 0 := by
        obtain ⟨x, hx, hx0⟩ := hz
        simp at hx
        rw [← hx]
        exact hx0
      subst ha
      simp [absDescents]
    | cons b rest =>
      show absDescents (a :: b :: rest) = _
      unfold absDescents
      by_cases hcond : absQ b ≠ absQ a
      · have hba : absQ b ≤ absQ a := hafirst b (by simp)
        have hba2 : absQ b < absQ a := lt_of_le_of_ne hba hcond
        have hane : a ≠ 0 := by
          intro ha0
          subst ha0
          have := absQ_nonneg b
          rw [show absQ (0 : ℚ) = 0 from by unfold absQ; norm_num] at hba2
          linarith
        rw [if_pos hcond]
        by_cases h0 : b = 0
        · rw [if_pos h0]
          have hrest0 : ∀ x ∈ rest, x = 0 := by
            intro x hx
            have h1 := (List.rel_of_pairwise_cons hpwt) hx
            rw [h0] at h1
            rw [show absQ (0 : ℚ) = 0 from by unfold absQ; norm_num] at h1
            have h2 := absQ_nonneg x
            exact (absQ_eq_zero x).mp (le_antisymm h1 h2)
          have hfil : List.filter (fun x => decide (x ≠ 0)) (a :: b :: rest) = [a] := by
            rw [List.filter_cons, if_pos (by simp [hane])]
            rw [List.filter_cons, if_neg (by simp [h0])]
            rw [List.filter_eq_nil_iff.mpr (fun x hx => by simp [hrest0 x hx])]
          rw [hfil]
          simp
        · rw [if_neg h0]
          have hz2 : ∃ x ∈ b :: rest, x = 0 := by
            obtain ⟨x, hx, hx0⟩ := hz
            rcases List.mem_cons.mp hx with h1 | h1
            · exact absurd (h1 ▸ hx0) hane
            · exact ⟨x, h1, hx0⟩
          rw [ih hpwt hz2]
          have hfil : List.filter (fun x => decide (x ≠ 0)) (a :: b :: rest) =
              a :: List.filter (fun x => decide (x ≠ 0)) (b :: rest) := by
            rw [List.filter_cons, if_pos (by simp [hane])]
          rw [hfil, List.map_cons]
          rw [List.dedup_cons_of_not_mem]
          · simp
            omega
          · intro hmem
            obtain ⟨x, hx, hxa⟩ := List.mem_map.mp hmem
            have hxmem : x ∈ b :: rest := List.mem_of_mem_filter hx
            have hxb : absQ x ≤ absQ b := by
              rcases List.mem_cons.mp hxmem with h1 | h1
              · rw [h1]
              · exact (List.rel_of_pairwise_cons hpwt) h1
            rw [hxa] at hxb
            linarith
      · rw [if_neg hcond]
        have hab : absQ b = absQ a := not_ne_iff.mp hcond
        by_cases ha0 : a = 0
        · have hb0 : b = 0 := by
            apply (absQ_eq_zero b).mp
            rw [hab, ha0]
            unfold absQ
            norm_num
          have hz2 : ∃ x ∈ b :: rest, x = 0 := ⟨b, by simp, hb0⟩
          have hfil2 : List.filter (fun x => decide (x ≠ 0)) (a :: b :: rest) =
              List.filter (fun x => decide (x ≠ 0)) (b :: rest) := by
            rw [List.filter_cons, if_neg (by simp [ha0])]
          rw [hfil2]
          exact ih hpwt hz2
        · have hb0 : b ≠ 0 := by
            intro hb
            apply ha0
            apply (absQ_eq_zero a).mp
            rw [← hab, hb]
            unfold absQ
            norm_num
          have hz2 : ∃ x ∈ b :: rest, x = 0 := by
            obtain ⟨x, hx, hx0⟩ := hz
            rcases List.mem_cons.mp hx with h1 | h1
            · exact absurd (h1 ▸ hx0) ha0
            · exact ⟨x, h1, hx0⟩
          rw [ih hpwt hz2]
          have hfil : List.filter (fun x => decide (x ≠ 0)) (a :: b :: rest) =
              a :: List.filter (fun x => decide (x ≠ 0)) (b :: rest) := by
            rw [List.filter_cons, if_pos (by simp [ha0])]
          rw [hfil, List.map_cons]
          rw [List.dedup_cons_of_mem]
          exact List.mem_map.mpr ⟨b, List.mem_filter.mpr ⟨by simp, by simp [hb0]⟩,
            hab⟩

lemma map_getD_range {α : Type} (l : List α) (d : α) :
    (List.range l.length).map (fun i => l.getD i d) = l := by
  induction l with
  | nil => rfl
  | cons a t ih =>
    rw [List.length_cons, List.range_succ_eq_map, List.map_cons, List.map_map]
    have h2 : List.map ((fun i => (a :: t).getD i d) ∘ Nat.succ) (List.range t.length)
        = List.map (fun i => t.getD i d) (List.range t.length) :=
      List.map_congr_left (fun i _ => rfl)
    rw [h2, ih]
    rfl

lemma absQ_zero : absQ 0 = 0 := by
  unfold absQ
  norm_num

lemma vecNeg_length (v : List ℚ) : (vecNeg v).length = v.length := by
  unfold vecNeg
  rw [List.length_map]

lemma negAbs_getD (soln : List ℚ) (t : ℕ) :
    (vecNeg (soln.map absQ)).getD t 0 = -absQ (soln.getD t 0) := by
  by_cases ht : t < soln.length
  · unfold vecNeg
    rw [getD_map_lt _ _ t 0 0 (by simpa using ht), getD_map_lt _ _ t 0 0 ht]
  · rw [List.getD_eq_default _ _ (by rw [vecNeg_length, List.length_map]; omega),
      List.getD_eq_default _ _ (by omega)]
    rw [absQ_zero]
    norm_num

lemma slopeSorted_length (soln : List ℚ) : (slopeSorted soln).length = soln.length := by
  unfold slopeSorted slopeIndices argsortL
  rw [List.length_map, List.length_insertionSort, List.length_range,
    vecNeg_length, List.length_map]

lemma slopeSorted_perm (soln : List ℚ) : (slopeSorted soln).Perm soln := by
  unfold slopeSorted slopeIndices
  have h1 : (argsortL (vecNeg (soln.map absQ))).Perm
      (List.range (vecNeg (soln.map absQ)).length) :=
    List.perm_insertionSort _ _
  have h2 := h1.map (fun i => soln.getD i 0)
  have h3 : (vecNeg (soln.map absQ)).length = soln.length := by
    rw [vecNeg_length, List.length_map]
  rw [h3] at h2
  rw [map_getD_range soln 0] at h2
  exact h2

lemma slopeSorted_pairwise (soln : List ℚ) :
    List.Pairwise (fun a b => absQ b ≤ absQ a) (slopeSorted soln) := by
  unfold slopeSorted slopeIndices argsortL
  rw [List.pairwise_map]
  have hsorted : List.Sorted
      (fun i j => (vecNeg (soln.map absQ)).getD i 0 ≤ (vecNeg (soln.map absQ)).getD j 0)
      (List.insertionSort
        (fun i j => (vecNeg (soln.map absQ)).getD i 0 ≤ (vecNeg (soln.map absQ)).getD j 0)
        (List.range (vecNeg (soln.map absQ)).length)) := by
    haveI : IsTotal ℕ
        (fun i j => (vecNeg (soln.map absQ)).getD i 0 ≤ (vecNeg (soln.map absQ)).getD j 0) :=
      ⟨fun a b => le_total _ _⟩
    haveI : IsTrans ℕ
        (fun i j => (vecNeg (soln.map absQ)).getD i 0 ≤ (vecNeg (soln.map absQ)).getD j 0) :=
      ⟨fun a b c hab hbc => le_trans hab hbc⟩
    exact List.sorted_insertionSort _ _
  refine hsorted.imp ?_
  intro i j hij
  rw [negAbs_getD, negAbs_getD] at hij
  linarith

/-- Core clustering-count lemma: for any SLOPE solution containing at least
one zero coordinate, the clustering loop emits exactly one sign-cluster
column per distinct nonzero magnitude, i.e. the length of `signs_cluster`
equals `num_opt_var` (the length of `observed_opt_state`). -/
lemma slope_cluster_count_core (soln : List ℚ) (hz : ∃ x ∈ soln, x = 0) :
    (slopeSignsCluster soln).length = slopeNumOptVar soln := by
  have hne : soln ≠ [] := by
    obtain ⟨x, hx, _⟩ := hz
    exact List.ne_nil_of_mem hx
  have hp : 1 ≤ soln.length := List.length_pos.mpr hne
  have hS := slopeSorted_length soln
  have h1 : (slopeSignsCluster soln).length =
      descentsFromAux (slopeSorted soln) (soln.length - 1) 0 := by
    unfold slopeSignsCluster
    rw [slopeLoopAux_count soln (slopeIndices soln) (slopeSorted soln) soln.length
      (soln.length - 1) 0 slopeLoopInit rfl]
    simp [slopeLoopInit]
  have h2 : descentsFromAux (slopeSorted soln) (soln.length - 1) 0 =
      absDescents (slopeSorted soln) := by
    have h := descentsFromAux_eq_absDescents (slopeSorted soln) (soln.length - 1) 0
      (by omega)
    simpa using h
  have hzS : ∃ x ∈ slopeSorted soln, x = 0 := by
    obtain ⟨x, hx, hx0⟩ := hz
    exact ⟨x, (slopeSorted_perm soln).mem_iff.mpr hx, hx0⟩
  have h3 := absDescents_eq_dedup (slopeSorted soln) (slopeSorted_pairwise soln) hzS
  have h5 : ((((slopeSorted soln).filter (fun x => decide (x ≠ 0))).map absQ).dedup).length
      = (((soln.filter (fun x => decide (x ≠ 0))).map absQ).dedup).length :=
    ((((slopeSorted_perm soln).filter _).map absQ).dedup).length_eq
  have h4 : slopeNumOptVar soln =
      (((soln.filter (fun x => decide (x ≠ 0))).map absQ).dedup).length := by
    unfold slopeNumOptVar slopeObservedOptState npUnique npSort slopeActive
    rw [List.length_reverse, List.length_insertionSort, List.length_insertionSort,
      maskSelect_map_pred]
  rw [h1, h2, h3, h5, ← h4]

lemma slopeIndices_length (soln : List ℚ) : (slopeIndices soln).length = soln.length := by
  unfold slopeIndices argsortL
  rw [List.length_insertionSort, List.length_range, vecNeg_length, List.length_map]

lemma matMulOpt_shape (A B C : List (List ℚ)) (h : matMulOpt A B = some C) :
    (∀ row ∈ A, row.length = B.length) ∧ C.length = A.length ∧
      ∀ row ∈ C, row.length = (transposeM B).length := by
  unfold matMulOpt at h
  by_cases hall : (A.all fun r => decide (r.length = B.length)) = true
  · rw [if_pos hall] at h
    have hC := Option.some_inj.mp h
    refine ⟨?_, ?_, ?_⟩
    · intro row hrow
      have := (List.all_eq_true.mp hall) row hrow
      simpa using this
    · rw [← hC, List.length_map]
    · intro row hrow
      rw [← hC] at hrow
      obtain ⟨orig, horig, hval⟩ := List.mem_map.mp hrow
      rw [← hval, List.length_map]
  · rw [if_neg hall] at h
    exact absurd h (by simp)

lemma transposeM_shape (M : List (List ℚ)) (q : ℕ) (hne : M ≠ [])
    (hrows : ∀ row ∈ M, row.length = q) :
    (transposeM M).length = q ∧ ∀ row ∈ transposeM M, row.length = M.length := by
  cases M with
  | nil => exact absurd rfl hne
  | cons r rest =>
    constructor
    · show ((List.range r.length).map _).length = q
      rw [List.length_map, List.length_range]
      exact hrows r (by simp)
    · intro row hrow
      obtain ⟨c, hc, hval⟩ := List.mem_map.mp hrow
      rw [← hval, List.length_map]

lemma slopeSignVec_length (soln : List ℚ) (indices : List ℕ) (p s j : ℕ) :
    (slopeSignVec soln indices p s j).length = p := by
  unfold slopeSignVec
  rw [List.length_map, List.length_range]

lemma slopeLoopAux_signVec_length (soln : List ℚ) (indices : List ℕ) (S : List ℚ)
    (p : ℕ) :
    ∀ fuel j st, (∀ v ∈ st.signsCluster, v.length = p) →
      ∀ v ∈ (slopeLoopAux soln indices S p fuel j st).signsCluster, v.length = p := by
  intro fuel
  have hstep : ∀ j st, (∀ v ∈ st.signsCluster, v.length = p) →
      ∀ v ∈ (slopeLoopStep soln indices p j st).signsCluster, v.length = p := by
    intro j st h v hv
    unfold slopeLoopStep at hv
    simp only [List.mem_append, List.mem_singleton] at hv
    rcases hv with hv | hv
    · exact h v hv
    · rw [hv]
      exact slopeSignVec_length soln indices p _ _
  induction fuel with
  | zero => intro j st h; exact h
  | succ n ih =>
    intro j st h
    unfold slopeLoopAux
    by_cases hcond : absQ (S.getD (j + 1) 0) ≠ absQ (S.getD st.curIndx 0)
    · rw [if_pos hcond]
      by_cases h0 : S.getD (j + 1) 0 = 0
      · rw [if_pos h0]
        exact hstep j st h
      · rw [if_neg h0]
        exact ih (j + 1) _ (hstep j st h)
    · rw [if_neg hcond]
      exact ih (j + 1) st h

/-- C9: for every SLOPE fit whose solution contains at least one zero
coordinate, the clustering loop emits exactly one sign-cluster column per
distinct nonzero magnitude, so `signs_cluster` has exactly `num_opt_var`
columns (the length of `observed_opt_state`); consequently, at the level of
a successful `fit`, `opt_linear` is a `p × num_opt_var` matrix and
`cond_precision` is `num_opt_var × num_opt_var`.  The shape agreement
depends on the zero coordinate: the loop only closes a cluster when it sees
the next, different magnitude. -/
theorem slope_cluster_count_matches :
    (∀ soln : List ℚ, (∃ x ∈ soln, x = 0) →
      (slopeSignsCluster soln).length = slopeNumOptVar soln) ∧
    (∀ oc X p ridge prec omega r,
      slopeFit oc X p ridge prec omega = some r →
      (oc.solveProblem omega).length = p →
      (∃ x ∈ r.initialSoln, x = 0) →
      X ≠ [] → (∀ row ∈ X, row.length = p) →
      r.signsCluster.length = r.numOptVar ∧
      r.optLinear.length = p ∧
      (∀ row ∈ r.optLinear, row.length = r.numOptVar) ∧
      r.condPrecision.length = r.numOptVar ∧
      (∀ row ∈ r.condPrecision, row.length = r.numOptVar)) := by
  refine ⟨fun soln hz => slope_cluster_count_core soln hz, ?_⟩
  intro oc X p ridge prec omega r hfit hlen hz hXne hXrows
  unfold slopeFit at hfit
  simp only [bind, Option.bind_eq_some, Option.pure_def, Option.some.injEq] at hfit
  obtain ⟨m1, hm1, m2, hm2, m3, hm3, m4, hm4, m5, hm5, m6, hm6, hr⟩ := hfit
  subst hr
  have hz2 : ∃ x ∈ oc.solveProblem omega, x = 0 := hz
  have hsolne : oc.solveProblem omega ≠ [] := by
    obtain ⟨x, hx, _⟩ := hz2
    exact List.ne_nil_of_mem hx
  have hp1 : 1 ≤ p := by
    have := List.length_pos.mpr hsolne
    omega
  -- the cluster matrix and its column count
  have hcount : ((slopeLoopAux (oc.solveProblem omega)
      (slopeIndices (oc.solveProblem omega)) (slopeSorted (oc.solveProblem omega))
      p (p - 1) 0 slopeLoopInit).signsCluster).length =
      slopeNumOptVar (oc.solveProblem omega) := by
    have hcore := slope_cluster_count_core (oc.solveProblem omega) hz2
    unfold slopeSignsCluster at hcore
    rw [hlen] at hcore
    exact hcore
  have hsvl : ∀ v ∈ (slopeLoopAux (oc.solveProblem omega)
      (slopeIndices (oc.solveProblem omega)) (slopeSorted (oc.solveProblem omega))
      p (p - 1) 0 slopeLoopInit).signsCluster, v.length = p :=
    slopeLoopAux_signVec_length _ _ _ p (p - 1) 0 slopeLoopInit (by simp [slopeLoopInit])
  set SC := (slopeLoopAux (oc.solveProblem omega)
      (slopeIndices (oc.solveProblem omega)) (slopeSorted (oc.solveProblem omega))
      p (p - 1) 0 slopeLoopInit).signsCluster with hSC
  set k := slopeNumOptVar (oc.solveProblem omega) with hk
  -- shapes out of the X_clustered product
  obtain ⟨hall2, hlen2, hrows2⟩ := matMulOpt_shape _ _ _ hm2
  have hXindrow : ∀ row ∈ X, ((slopeIndices (oc.solveProblem omega)).map
      (fun i => row.getD i 0)).length = p := by
    intro row hrow
    rw [List.length_map, slopeIndices_length, hlen]
  have hB0len : (transposeM SC).length = p := by
    rcases X with _ | ⟨x0, xs⟩
    · exact absurd rfl hXne
    · have := hall2 ((slopeIndices (oc.solveProblem omega)).map
        (fun i => x0.getD i 0)) (by simp)
      rw [List.length_map, slopeIndices_length, hlen] at this
      exact this.symm
  have hSCne : SC ≠ [] := by
    intro hnil
    rw [hnil] at hB0len
    have : transposeM ([] : List (List ℚ)) = [] := rfl
    rw [this] at hB0len
    simp at hB0len
    omega
  have hSClen : SC.length = k := by
    rw [hSC, hk]
    exact hcount
  obtain ⟨hB0len2, hB0rows⟩ := transposeM_shape SC p hSCne hsvl
  have hB0ne : transposeM SC ≠ [] := by
    intro hnil
    rw [hnil] at hB0len2
    simp at hB0len2
    omega
  obtain ⟨hTB0len, hTB0rows⟩ := transposeM_shape (transposeM SC) SC.length hB0ne hB0rows
  -- m2 = X_clustered : n × k
  have hm2len : m2.length = X.length := by
    rw [hlen2, List.length_map]
  have hm2rows : ∀ row ∈ m2, row.length = k := by
    intro row hrow
    rw [hrows2 row hrow, hTB0len, hSClen]
  have hm2ne : m2 ≠ [] := by
    intro hnil
    rw [hnil] at hm2len
    rcases X with _ | _
    · exact absurd rfl hXne
    · simp at hm2len
  -- m3 = X.T.dot(X_clustered) : p × k
  obtain ⟨hall3, hlen3, hrows3⟩ := matMulOpt_shape _ _ _ hm3
  obtain ⟨hTXlen, hTXrows⟩ := transposeM_shape X p hXne hXrows
  obtain ⟨hTm2len, hTm2rows⟩ := transposeM_shape m2 k hm2ne hm2rows
  have hm3len : m3.length = p := by
    rw [hlen3, hTXlen]
  have hm3rows : ∀ row ∈ m3, row.length = k := by
    intro row hrow
    rw [hrows3 row hrow, hTm2len]
  -- opt_linear = -m3 : p × k
  have hOLlen : (matNeg m3).length = p := by
    unfold matNeg
    rw [List.length_map, hm3len]
  have hOLrows : ∀ row ∈ matNeg m3, row.length = k := by
    intro row hrow
    unfold matNeg at hrow
    obtain ⟨orig, horig, hval⟩ := List.mem_map.mp hrow
    rw [← hval, vecNeg_length]
    exact hm3rows orig horig
  have hOLne : matNeg m3 ≠ [] := by
    intro hnil
    rw [hnil] at hOLlen
    simp at hOLlen
    omega
  -- cond_precision = prec * (opt_linear.T.dot(opt_linear)) : k × k
  obtain ⟨hall4, hlen4, hrows4⟩ := matMulOpt_shape _ _ _ hm4
  obtain ⟨hTOLlen, hTOLrows⟩ := transposeM_shape (matNeg m3) k hOLne hOLrows
  have hm4len : m4.length = k := by
    rw [hlen4, hTOLlen]
  have hm4rows : ∀ row ∈ m4, row.length = k := by
    intro row hrow
    rw [hrows4 row hrow, hTOLlen]
  refine ⟨hSClen, ?_, ?_, ?_, ?_⟩
  · exact hOLlen
  · exact hOLrows
  · show (matScale prec m4).length = k
    unfold matScale
    rw [List.length_map, hm4len]
  · intro row hrow
    show row.length = k
    unfold matScale at hrow
    obtain ⟨orig, horig, hval⟩ := List.mem_map.mp hrow
    rw [← hval, List.length_map]
    exact hm4rows orig horig

/-- Witness for `slope_cluster_count_matches`: the concrete solution
`[5, 1, 0]` (count equality), and a successful concrete fit with solution
`[1, 0]` whose cluster matrix, `opt_linear` and `cond_precision` have the
claimed shapes. -/
theorem slope_cluster_count_matches_witness :
    (slopeSignsCluster [5, 1, 0]).length = slopeNumOptVar [5, 1, 0] ∧
    ∀ r, slopeFit
        { solveProblem := fun _ => [1, 0], restrictedEst := fun _ => [1]
          hessDiag := fun _ => [1, 1], gradAt := fun _ => [0, 0] }
        [[1, 0], [0, 1]] 2 0 1 [0, 0] = some r →
      r.signsCluster.length = r.numOptVar ∧
      r.optLinear.length = 2 ∧
      (∀ row ∈ r.optLinear, row.length = r.numOptVar) ∧
      r.condPrecision.length = r.numOptVar ∧
      (∀ row ∈ r.condPrecision, row.length = r.numOptVar) :=
  ⟨slope_cluster_count_matches.1 [5, 1, 0] (by with_unfolding_all decide),
   fun r hr => slope_cluster_count_matches.2
     { solveProblem := fun _ => [1, 0], restrictedEst := fun _ => [1]
       hessDiag := fun _ => [1, 1], gradAt := fun _ => [0, 0] }
     [[1, 0], [0, 1]] 2 0 1 [0, 0] r hr (by with_unfolding_all decide)
     (by
       have hsoln : r.initialSoln = [1, 0] := by
         have h2 := hr
         unfold slopeFit at h2
         simp only [bind, Option.bind_eq_some, Option.pure_def,
           Option.some.injEq] at h2
         obtain ⟨m1, hm1, m2, hm2, m3, hm3, m4, hm4, m5, hm5, m6, hm6, hrr⟩ := h2
         rw [← hrr]
       rw [hsoln]
       with_unfolding_all decide)
     (by with_unfolding_all decide) (by with_unfolding_all decide)⟩
